import Mathlib

/-!
Verification of core components of the `wildfire` repository against its
specification.

The development shallow-embeds the relevant Python functions:

* `wildfire/models/dnn/training_data.py` : `get_patch_indices`;
* `wildfire/models/threshold_model/model.py` (and the identical
  `wildfire/threshold_model/model.py`) : `predict`, `_assert_shapes_match`;
* `wildfire/goes/scan.py` / `wildfire/data/goes_level_1/scan.py` :
  `GoesScan._parse_input` and its three assertion helpers;
* `wildfire/goes/band.py` : `GoesBand.rescale_to_2km` (xarray `thin`) and the
  `to_netcdf` storage-path layout;
* `wildfire/goes/utilities.py` : `parse_filename`, i.e. the fixed regular
  expression `OR_ABI-L1b-Rad(.*)-M\dC(\d{2})_(G\d{2})_s(.*)_e.*_c.*.nc`
  applied with `re.search` semantics, followed by
  `datetime.strptime(started_at, "%Y%j%H%M%S%f")`.

2-dimensional numpy / xarray arrays are embedded as a pair of dimensions
together with a total value function on indices (only the indices below the
dimensions are meaningful); fallible code returns `Option` / `Except`.

The file is organised as all definitions first, then all theorems.
-/

namespace Wildfire

/-! # Definitions -/

/-! ## Patch extraction (`wildfire/models/dnn/training_data.py`) -/

/-- `np.arange(0, stop, step)` for an integer `stop` and a positive integer
`step`: the values `0, step, 2*step, ...` strictly below `stop`, which is
the list of the `⌈stop/step⌉` first multiples of `step` (empty when
`stop ≤ 0`).  The count is computed through `Int.toNat`, which clamps a
negative `stop` to `0` exactly as `np.arange` returns an empty array then. -/
def npArange (stop step : Int) : List Int :=
  (List.range ((stop.toNat + step.toNat - 1) / step.toNat)).map (fun (i : Nat) => (i : Int) * step)

/-- `get_patch_indices(max_index, length, stride)` from
`wildfire/models/dnn/training_data.py`: raises (`none`) when
`max_index < length`; otherwise `np.append(np.arange(0, last_patch, stride),
[last_patch])` with `last_patch = max_index - length`. -/
def get_patch_indices (max_index length stride : Int) : Option (List Int) :=
  if max_index < length then none
  else some (npArange (max_index - length) stride ++ [max_index - length])

/-! ## Threshold wildfire classifier
(`wildfire/models/threshold_model/model.py`; the copy in
`wildfire/threshold_model/model.py` has an identical `predict` and
`_assert_shapes_match`.) -/

/-- A 2-dimensional boolean numpy array: its shape `(h, w)` together with its
pixel values (the value function is total; only indices below the shape are
meaningful). -/
structure BoolGrid where
  h : Nat
  w : Nat
  data : Nat → Nat → Bool

/-- `arg.shape` of a mask. -/
def shapeOf (g : BoolGrid) : Nat × Nat := (g.h, g.w)

/-- The python set `{arg.shape for arg in args}` built by
`_assert_shapes_match` over the four masks. -/
def shapesOf (a b c d : BoolGrid) : Finset (Nat × Nat) :=
  {shapeOf a, shapeOf b, shapeOf c, shapeOf d}

/-- The `ValueError` raised by `_assert_shapes_match`; it reports the set of
distinct shapes it saw. -/
inductive PredictError where
  | shapeMismatch : Finset (Nat × Nat) → PredictError
deriving DecidableEq

/-- `predict(is_hot, is_cloud, is_water, is_night)`:
`_assert_shapes_match(...)` (raising when the set of the four shapes does not
have exactly one element), then the pixelwise
`is_hot & (is_night | (~is_cloud & ~is_water))`. -/
def predict (is_hot is_cloud is_water is_night : BoolGrid) : Except PredictError BoolGrid :=
  if (shapesOf is_hot is_cloud is_water is_night).card ≠ 1 then
    .error (.shapeMismatch (shapesOf is_hot is_cloud is_water is_night))
  else
    .ok ⟨is_hot.h, is_hot.w, fun i j =>
      is_hot.data i j && (is_night.data i j || (!(is_cloud.data i j) && !(is_water.data i j)))⟩

/-- The all-true mask of a given shape. -/
def fullMask (h w : Nat) : BoolGrid := ⟨h, w, fun _ _ => true⟩

/-- The all-false mask of a given shape. -/
def emptyMask (h w : Nat) : BoolGrid := ⟨h, w, fun _ _ => false⟩

/-! ## Scan assembly
(`wildfire/goes/scan.py` `GoesScan._parse_input` together with
`_assert_no_missing_bands`, `_assert_16_bands`,
`_assert_consistent_attributes`; `wildfire/data/goes_level_1/scan.py` has the
same pipeline.) -/

/-- The result of Python's `datetime.strptime`: a `datetime.datetime` value.
Only the fields read by the code under verification are modelled. -/
structure PyDateTime where
  year : Nat
  month : Nat
  day : Nat
  hour : Nat
  minute : Nat
  second : Nat
  microsecond : Nat
deriving DecidableEq

/-- One band dataset as seen by `GoesScan._parse_input`: its `band_id`
(the dict key `dataset.band_id.data[0]`, equal to the channel number of the
filename) and the `(region, satellite, scan_start)` attributes that
`_assert_consistent_attributes` extracts by `parse_filename` from the band's
`dataset_name`. -/
structure GoesBandMeta where
  band_id : Nat
  region : List Char
  satellite : List Char
  scan_start : PyDateTime
deriving DecidableEq

/-- The list of the bands' `band_id`s, in list order. -/
def bandIds (bands : List GoesBandMeta) : List Nat :=
  bands.map (fun b => b.band_id)

/-- The `(region, satellite, scan_start)` triple of one band, as collected by
`_assert_consistent_attributes`. -/
def metaTriple (b : GoesBandMeta) : List Char × List Char × PyDateTime :=
  (b.region, b.satellite, b.scan_start)

/-- Lookup in the Python dict `{band.band_id: band for band in bands}`:
on duplicate keys the later entry wins. -/
def lookupLast (i : Nat) (bands : List GoesBandMeta) : Option GoesBandMeta :=
  bands.reverse.find? (fun b => b.band_id == i)

/-- The three distinguishable `ValueError`s of `_parse_input`
("Missing bands: {...}" / "Too many bands provided (got {n}; expected 16)" /
"All bands must have the same scan start time, region, and satellite"). -/
inductive AssembleError where
  | missingBands : List Nat → AssembleError
  | wrongCount : Nat → AssembleError
  | inconsistentMetadata : AssembleError
deriving DecidableEq

/-- The set difference `set(range(1, 17)) - set(parsed.keys())` computed by
`_assert_no_missing_bands`, listed in ascending order. -/
def missingBandIds (bands : List GoesBandMeta) : List Nat :=
  (List.range' 1 16).filter (fun i => !((bandIds bands).contains i))

/-- `GoesScan._parse_input(bands)`: key the bands by `band_id`
(duplicates collapse, the later band wins), then in this order
`_assert_no_missing_bands` (on the dict), `_assert_16_bands` (on the list),
`_assert_consistent_attributes` (on the list), and finally the sorted
dictionary `{f"band_{i}": parsed[i] for i in range(1, 17)}`. -/
def assemble (bands : List GoesBandMeta) :
    Except AssembleError (List (Nat × GoesBandMeta)) :=
  if missingBandIds bands ≠ [] then .error (.missingBands (missingBandIds bands))
  else if bands.length ≠ 16 then .error (.wrongCount bands.length)
  else if (bands.map metaTriple).dedup.length ≠ 1 then .error .inconsistentMetadata
  else .ok ((List.range' 1 16).filterMap (fun i => (lookupLast i bands).map (fun b => (i, b))))

/-- A concrete scan-start time shared by the witness bands below. -/
def witnessTime : PyDateTime := ⟨2019, 10, 27, 20, 48, 27, 500000⟩

/-- A well-formed input for `assemble`: 16 bands with ids 1..16 and one
shared metadata triple. -/
def goodBands16 : List GoesBandMeta :=
  (List.range' 1 16).map (fun i => ⟨i, ['M', '1'], ['G', '1', '7'], witnessTime⟩)

/-- 16 bands in which band id 1 occurs twice and band id 16 is absent. -/
def dupBands16 : List GoesBandMeta :=
  (List.range' 1 15).map (fun i => ⟨i, ['M', '1'], ['G', '1', '7'], witnessTime⟩) ++
    [⟨1, ['M', '1'], ['G', '1', '7'], witnessTime⟩]

/-! ## Resolution alignment
(`wildfire/goes/band.py` `GoesBand.rescale_to_2km` and
`wildfire/data/goes_level_1/scan.py` `GoesScan.rescale_to_2km`). -/

/-- One band's xarray dataset as the rescaling code sees it: the 2-dimensional
radiance array (its shape and a total value function; the radiance values
themselves are opaque to the rescaling code and embedded as integers) and the
1-dimensional `x` / `y` coordinate arrays. -/
structure RadGrid where
  h : Nat
  w : Nat
  rad : Nat → Nat → Int
  xs : List Int
  ys : List Int

/-- Every `k`-th element of a list, starting from the first — one dimension
of xarray's `Dataset.thin(k)` (i.e. `isel` with the slice `::k`). -/
def thinList {α : Type} (k : Nat) : List α → List α
  | [] => []
  | a :: rest => a :: thinList k (rest.drop (k - 1))
termination_by l => l.length
decreasing_by
  simp only [List.length_drop, List.length_cons]
  omega

/-- `⌈n / k⌉`, the length of python's `range(0, n, k)`: the number of indices
kept along a dimension of size `n` by `thin(k)`. -/
def ceilDiv (n k : Nat) : Nat := (n + k - 1) / k

/-- xarray's `Dataset.thin(k)`: keep every `k`-th index along every
dimension, so the new value at `(i, j)` is the old value at `(k*i, k*j)` and
each dimension of size `n` becomes `⌈n / k⌉`; the coordinate arrays are
thinned alike. -/
def thinGrid (k : Nat) (g : RadGrid) : RadGrid :=
  ⟨ceilDiv g.h k, ceilDiv g.w k, fun i j => g.rad (k * i) (k * j),
    thinList k g.xs, thinList k g.ys⟩

/-- `wildfire/goes/band.py` `GoesBand`: the parsed `band_id` together with
the dataset.  (`GoesBand(dataset=...)` re-parses the unchanged
`dataset_name`, so rescaling preserves `band_id`.) -/
structure GoesBand where
  band_id : Nat
  grid : RadGrid

/-- `GoesBand.rescale_to_2km` from `wildfire/goes/band.py`:
`thin(2)` for `band_id in (1, 3, 5)`, `thin(4)` for `band_id == 2`, and the
unchanged dataset otherwise. -/
def rescale_to_2km (b : GoesBand) : GoesBand :=
  if b.band_id = 1 ∨ b.band_id = 3 ∨ b.band_id = 5 then ⟨b.band_id, thinGrid 2 b.grid⟩
  else if b.band_id = 2 then ⟨b.band_id, thinGrid 4 b.grid⟩
  else b

/-- The decimation stride `rescale_to_2km` applies to a band (`none` for the
pass-through bands). -/
def rescaleStride (b : GoesBand) : Option Nat :=
  if b.band_id = 1 ∨ b.band_id = 3 ∨ b.band_id = 5 then some 2
  else if b.band_id = 2 then some 4
  else none

/-- A band-1 dataset whose spatial dimensions (5 × 5) are not divisible by
its decimation stride 2. -/
def cexBand500 : GoesBand :=
  ⟨1, ⟨5, 5, fun i j => ((i * 5 + j : Nat) : Int), [0, 1, 2, 3, 4], [0, 1, 2, 3, 4]⟩⟩

/-- A band-1 dataset with 4 × 4 spatial dimensions. -/
def band1of4 : GoesBand :=
  ⟨1, ⟨4, 4, fun i j => ((10 * i + j : Nat) : Int), [0, 1, 2, 3], [0, 1, 2, 3]⟩⟩

/-- A band-7 dataset (a pass-through band for `rescale_to_2km`). -/
def band7of4 : GoesBand :=
  ⟨7, ⟨4, 4, fun i j => ((i + j : Nat) : Int), [0, 1, 2, 3], [0, 1, 2, 3]⟩⟩

/-- The native resolution tier of a band dataset (`dataset.spatial_resolution`). -/
inductive Tier where
  | m500 : Tier
  | km1 : Tier
  | km2 : Tier
deriving DecidableEq

/-- A band of `wildfire/data/goes_level_1`: id, current resolution tier, and
dataset. -/
structure L1GoesBand where
  band_id : Nat
  tier : Tier
  grid : RadGrid

/-- Modelled from the spec: the file `wildfire/data/goes_level_1/band.py`
(whose `GoesBand.rescale_to_2km` is what
`wildfire/data/goes_level_1/scan.py` `GoesScan.rescale_to_2km` maps over the
16 bands) is not under `src/` — only its callers and its unit tests are.
Spec §4.2: "bands at native 500m/1km are decimated by an integer stride
(2 or 4) to reach 2km; bands already at 2km pass through", decimation being
pure subsampling (`thin`).  Consistently,
`tests/unit/data/goes_level_1/test_band.py` asserts that rescaling an
already-rescaled band preserves its shape. -/
def l1_rescale_to_2km (b : L1GoesBand) : L1GoesBand :=
  match b.tier with
  | .m500 => ⟨b.band_id, .km2, thinGrid 4 b.grid⟩
  | .km1 => ⟨b.band_id, .km2, thinGrid 2 b.grid⟩
  | .km2 => b

/-- An assembled 16-band scan, indexed so that slot `i` holds band `i + 1`. -/
structure L1GoesScan where
  bands : Fin 16 → L1GoesBand

/-- `Dataset.assign_coords(x=..., y=...)`: replace the coordinate arrays,
leaving shape and values untouched. -/
def assignCoords (xs ys : List Int) (b : L1GoesBand) : L1GoesBand :=
  ⟨b.band_id, b.tier, ⟨b.grid.h, b.grid.w, b.grid.rad, xs, ys⟩⟩

/-- `GoesScan.rescale_to_2km` from `wildfire/data/goes_level_1/scan.py`:
read band 16's coordinate arrays from the original scan, then rebuild the
scan from `band.rescale_to_2km().dataset.assign_coords(**band_16_coords)`
for every band. -/
def scan_rescale_to_2km (s : L1GoesScan) : L1GoesScan :=
  ⟨fun i => assignCoords (s.bands 15).grid.xs (s.bands 15).grid.ys
    (l1_rescale_to_2km (s.bands i))⟩

/-- A 16-band scan whose bands are all at the 2km tier already. -/
def l1ScanAll2km : L1GoesScan :=
  ⟨fun i => ⟨i.val + 1, .km2, ⟨2, 2, fun x y => ((x + y : Nat) : Int), [0, 2], [0, 2]⟩⟩⟩

/-! ## Filename codec (`wildfire/goes/utilities.py` `parse_filename`)

`parse_filename` runs `re.search` with the fixed pattern
`OR_ABI-L1b-Rad(.*)-M\dC(\d{2})_(G\d{2})_s(.*)_e.*_c.*.nc` and then
`datetime.strptime(group4, "%Y%j%H%M%S%f")`.  The embedding below implements
that specific pattern with Python's `re.search` semantics: the match is
attempted at every start position from the left; a `.` matches any character
except a newline; a greedy `(.*)` tries to capture as much as possible,
backtracking through the rest of the pattern.  `strptime` is embedded with
the directive sub-patterns of CPython's `_strptime` module
(`%Y` = `\d{4}`, `%j` = `36[0-6]|3[0-5]\d|[1-2]\d\d|0[1-9]\d|00[1-9]|[1-9]\d|0[1-9]|[1-9]`,
`%H` = `2[0-3]|[0-1]\d|\d`, `%M` = `[0-5]\d|\d`, `%S` = `6[0-1]|[0-5]\d|\d`,
`%f` = `[0-9]{1,6}` greedy), the alternatives tried in this order with
backtracking, the whole input required to be consumed by the first match
found, `%f` padded on the right to microseconds, and the julian day folded
into month/day exactly as `date.fromordinal` does. -/

/-- Is the character an ASCII digit? -/
def isDig (c : Char) : Bool := decide (48 ≤ c.toNat) && decide (c.toNat ≤ 57)

/-- The numeric value of an ASCII digit. -/
def digVal (c : Char) : Nat := c.toNat - 48

/-- `int(...)` of a nonempty string of ASCII digits. -/
def digitsVal (l : List Char) : Nat := l.foldl (fun a c => a * 10 + digVal c) 0

/-- Strip an expected literal from the front of the input (`none` when the
input does not start with it). -/
def dropLit : List Char → List Char → Option (List Char)
  | [], s => some s
  | _ :: _, [] => none
  | c :: p, d :: s => if d = c then dropLit p s else none

/-- The greedy star `(.*)` followed by the rest of the pattern, as a
continuation `k`: capture the longest newline-free prefix whose remainder
makes `k` succeed, backtracking to shorter captures otherwise — exactly a
greedy `.*` in a backtracking regex engine. -/
def splitStarK {α : Type} (k : List Char → Option α) : List Char → Option (List Char × α)
  | [] => (k []).map (fun a => ([], a))
  | c :: s =>
    if c = '\n' then (k (c :: s)).map (fun a => ([], a))
    else
      match splitStarK k s with
      | some (g, a) => some (c :: g, a)
      | none => (k (c :: s)).map (fun a => ([], a))

/-- Match one `\d`. -/
def oneDig : List Char → Option (Char × List Char)
  | c :: r => if isDig c then some (c, r) else none
  | [] => none

/-- The fixed middle of the pattern, `-M\dC(\d{2})_(G\d{2})_s`: returns the
band-digit capture, the satellite capture, and the rest of the input. -/
def matchMid (t : List Char) : Option (List Char × List Char × List Char) := do
  let t1 ← dropLit ['-', 'M'] t
  let (_m, t2) ← oneDig t1
  let t3 ← dropLit ['C'] t2
  let (d1, t4) ← oneDig t3
  let (d2, t5) ← oneDig t4
  let t6 ← dropLit ['_', 'G'] t5
  let (e1, t7) ← oneDig t6
  let (e2, t8) ← oneDig t7
  let t9 ← dropLit ['_', 's'] t8
  pure ([d1, d2], ['G', e1, e2], t9)

/-- Does the input start with the literal `nc`? -/
def startsNC : List Char → Bool
  | 'n' :: 'c' :: _ => true
  | _ => false

/-- Can `.*.nc` (any newline-free run, one non-newline character, then
`nc`) match a prefix of the input? -/
def findDotNC : List Char → Bool
  | c :: r => (c != '\n') && (startsNC r || findDotNC r)
  | [] => false

/-- After an underscore: does a `c` followed by a `.*.nc` match follow? -/
def afterUc : List Char → Bool
  | 'c' :: r => findDotNC r
  | _ => false

/-- Can `.*_c.*.nc` match a prefix of the input? -/
def findCtail : List Char → Bool
  | c :: r => ((c == '_') && afterUc r) || ((c != '\n') && findCtail r)
  | [] => false

/-- After an underscore: does an `e` followed by a `.*_c.*.nc` match
follow? -/
def afterUe : List Char → Bool
  | 'e' :: r => findCtail r
  | _ => false

/-- Can the pattern tail `_e.*_c.*.nc` match a prefix of the input?
(The pattern is not anchored, so trailing input is ignored.) -/
def tailOk : List Char → Bool
  | c :: r => (c == '_') && afterUe r
  | [] => false

/-- The four captures of the filename pattern. -/
structure FileGroups where
  region : List Char
  chanDigits : List Char
  satellite : List Char
  startField : List Char
deriving DecidableEq

/-- The continuation after the fourth capture `(.*)`: the pattern tail
`_e.*_c.*.nc` must match a prefix of the remainder. -/
def tailK (u : List Char) : Option Unit :=
  if tailOk u then some () else none

/-- The continuation after the first capture `(.*)`: the fixed middle
`-M\dC(\d{2})_(G\d{2})_s`, then the greedy fourth capture with
continuation `tailK`. -/
def midK (t : List Char) : Option (List Char × List Char × List Char) := do
  let (band, sat, r) ← matchMid t
  let (g4, _u) ← splitStarK tailK r
  pure (band, sat, g4)

/-- Attempt the full pattern at the start of the input: the literal
`OR_ABI-L1b-Rad`, the greedy capture `(.*)` whose continuation is the fixed
middle `-M\dC(\d{2})_(G\d{2})_s` followed by the greedy capture `(.*)` whose
continuation is the tail `_e.*_c.*.nc`. -/
def matchAt (s : List Char) : Option FileGroups := do
  let s1 ← dropLit ("OR_ABI-L1b-Rad".toList) s
  let (g1, band, sat, g4) ← splitStarK midK s1
  pure ⟨g1, band, sat, g4⟩

/-- `re.search`: try the pattern at every start position, leftmost first. -/
def searchG : List Char → Option FileGroups
  | [] => matchAt []
  | c :: rest =>
    match matchAt (c :: rest) with
    | some g => some g
    | none => searchG rest

/-- Try alternatives in order, returning the first overall success — the
backtracking preference order of a regex alternation. -/
def firstSome {α β : Type} : List α → (α → Option β) → Option β
  | [], _ => none
  | a :: rest, f =>
    match f a with
    | some b => some b
    | none => firstSome rest f

/-- `%Y`: exactly four digits. -/
def altsY : List Char → List (Nat × List Char)
  | c1 :: c2 :: c3 :: c4 :: rest =>
    if isDig c1 && isDig c2 && isDig c3 && isDig c4 then
      [(digitsVal [c1, c2, c3, c4], rest)]
    else []
  | _ => []

/-- `%j` alternative `36[0-6]`. -/
def altJ1 : List Char → Option (Nat × List Char)
  | c1 :: c2 :: c3 :: rest =>
    if (c1 == '3') && (c2 == '6') && isDig c3 && decide (digVal c3 ≤ 6) then
      some (360 + digVal c3, rest)
    else none
  | _ => none

/-- `%j` alternative `3[0-5]\d`. -/
def altJ2 : List Char → Option (Nat × List Char)
  | c1 :: c2 :: c3 :: rest =>
    if (c1 == '3') && isDig c2 && decide (digVal c2 ≤ 5) && isDig c3 then
      some (300 + 10 * digVal c2 + digVal c3, rest)
    else none
  | _ => none

/-- `%j` alternative `[1-2]\d\d`. -/
def altJ3 : List Char → Option (Nat × List Char)
  | c1 :: c2 :: c3 :: rest =>
    if isDig c1 && decide (1 ≤ digVal c1) && decide (digVal c1 ≤ 2) && isDig c2 && isDig c3 then
      some (100 * digVal c1 + 10 * digVal c2 + digVal c3, rest)
    else none
  | _ => none

/-- `%j` alternative `0[1-9]\d`. -/
def altJ4 : List Char → Option (Nat × List Char)
  | c1 :: c2 :: c3 :: rest =>
    if (c1 == '0') && isDig c2 && decide (1 ≤ digVal c2) && isDig c3 then
      some (10 * digVal c2 + digVal c3, rest)
    else none
  | _ => none

/-- `%j` alternative `00[1-9]`. -/
def altJ5 : List Char → Option (Nat × List Char)
  | c1 :: c2 :: c3 :: rest =>
    if (c1 == '0') && (c2 == '0') && isDig c3 && decide (1 ≤ digVal c3) then
      some (digVal c3, rest)
    else none
  | _ => none

/-- `%j` alternative `[1-9]\d`. -/
def altJ6 : List Char → Option (Nat × List Char)
  | c1 :: c2 :: rest =>
    if isDig c1 && decide (1 ≤ digVal c1) && isDig c2 then
      some (10 * digVal c1 + digVal c2, rest)
    else none
  | _ => none

/-- `%j` alternative `0[1-9]`. -/
def altJ7 : List Char → Option (Nat × List Char)
  | c1 :: c2 :: rest =>
    if (c1 == '0') && isDig c2 && decide (1 ≤ digVal c2) then
      some (digVal c2, rest)
    else none
  | _ => none

/-- `%j` alternative `[1-9]`. -/
def altJ8 : List Char → Option (Nat × List Char)
  | c1 :: rest =>
    if isDig c1 && decide (1 ≤ digVal c1) then some (digVal c1, rest) else none
  | _ => none

/-- `%j`, the alternatives in CPython's order. -/
def altsJ (s : List Char) : List (Nat × List Char) :=
  (altJ1 s).toList ++ (altJ2 s).toList ++ (altJ3 s).toList ++ (altJ4 s).toList ++
    (altJ5 s).toList ++ (altJ6 s).toList ++ (altJ7 s).toList ++ (altJ8 s).toList

/-- `%H` alternative `2[0-3]`. -/
def altH1 : List Char → Option (Nat × List Char)
  | c1 :: c2 :: rest =>
    if (c1 == '2') && isDig c2 && decide (digVal c2 ≤ 3) then
      some (20 + digVal c2, rest)
    else none
  | _ => none

/-- `%H` alternative `[0-1]\d`. -/
def altH2 : List Char → Option (Nat × List Char)
  | c1 :: c2 :: rest =>
    if isDig c1 && decide (digVal c1 ≤ 1) && isDig c2 then
      some (10 * digVal c1 + digVal c2, rest)
    else none
  | _ => none

/-- The single-digit alternative `\d` shared by `%H`, `%M` and `%S`. -/
def altD : List Char → Option (Nat × List Char)
  | c1 :: rest => if isDig c1 then some (digVal c1, rest) else none
  | _ => none

/-- `%H`, the alternatives in CPython's order. -/
def altsH (s : List Char) : List (Nat × List Char) :=
  (altH1 s).toList ++ (altH2 s).toList ++ (altD s).toList

/-- `%M`/`%S` alternative `[0-5]\d`. -/
def altM1 : List Char → Option (Nat × List Char)
  | c1 :: c2 :: rest =>
    if isDig c1 && decide (digVal c1 ≤ 5) && isDig c2 then
      some (10 * digVal c1 + digVal c2, rest)
    else none
  | _ => none

/-- `%M`, the alternatives in CPython's order. -/
def altsM (s : List Char) : List (Nat × List Char) :=
  (altM1 s).toList ++ (altD s).toList

/-- `%S` alternative `6[0-1]` (leap seconds). -/
def altS1 : List Char → Option (Nat × List Char)
  | c1 :: c2 :: rest =>
    if (c1 == '6') && isDig c2 && decide (digVal c2 ≤ 1) then
      some (60 + digVal c2, rest)
    else none
  | _ => none

/-- `%S`, the alternatives in CPython's order. -/
def altsS (s : List Char) : List (Nat × List Char) :=
  (altS1 s).toList ++ (altM1 s).toList ++ (altD s).toList

/-- Take exactly `n` digits, accumulating their value. -/
def grabDigits : Nat → Nat → List Char → Option (Nat × List Char)
  | acc, 0, s => some (acc, s)
  | acc, n + 1, c :: s => if isDig c then grabDigits (acc * 10 + digVal c) n s else none
  | _, _ + 1, [] => none

/-- `%f` = `[0-9]{1,6}`, greedy (6 digits first, down to 1); the value is
right-padded with zeros to microseconds (`int(f + "0" * (6 - len(f)))`). -/
def altsF (s : List Char) : List (Nat × List Char) :=
  [6, 5, 4, 3, 2, 1].filterMap (fun n =>
    (grabDigits 0 n s).map (fun p => (p.1 * 10 ^ (6 - n), p.2)))

/-- The compiled format regex of `"%Y%j%H%M%S%f"` applied by `re.match`:
the six directives in sequence, each an ordered alternation, with full
backtracking; returns `(year, julian, hour, minute, second, fraction,
unconsumed rest)` of the first match found. -/
def matchTS (s : List Char) : Option (Nat × Nat × Nat × Nat × Nat × Nat × List Char) :=
  firstSome (altsY s) (fun py =>
  firstSome (altsJ py.2) (fun pj =>
  firstSome (altsH pj.2) (fun ph =>
  firstSome (altsM ph.2) (fun pm =>
  firstSome (altsS pm.2) (fun ps =>
  firstSome (altsF ps.2) (fun pf =>
  some (py.1, pj.1, ph.1, pm.1, ps.1, pf.1, pf.2)))))))

/-- Gregorian leap year. -/
def isLeap (y : Nat) : Bool := (y % 4 == 0) && ((y % 100 != 0) || (y % 400 == 0))

def daysInYear (y : Nat) : Nat := if isLeap y then 366 else 365

def monthLengths (y : Nat) : List Nat :=
  [31, if isLeap y then 29 else 28, 31, 30, 31, 30, 31, 31, 30, 31, 30, 31]

/-- Walk the month lengths, converting a day-of-year to (month, day). -/
def monthDayGo : List Nat → Nat → Nat → Nat × Nat
  | [], m, j => (m, j)
  | len :: rest, m, j => if j ≤ len then (m, j) else monthDayGo rest (m + 1) (j - len)

/-- CPython's `date.fromordinal(julian - 1 + date(year, 1, 1).toordinal())`:
a julian day beyond the year's length rolls over into the next year (no
error). -/
def fromJulian (y j : Nat) : Nat × Nat × Nat :=
  if j ≤ daysInYear y then
    let md := monthDayGo (monthLengths y) 1 j
    (y, md.1, md.2)
  else
    let md := monthDayGo (monthLengths (y + 1)) 1 (j - daysInYear y)
    (y + 1, md.1, md.2)

/-- `datetime.strptime(s, "%Y%j%H%M%S%f")`: match the compiled format regex,
require the whole input consumed ("unconverted data remains"), require a
representable year (`date(0, ...)` raises) and a representable second
(`datetime` rejects the leap seconds 60/61 admitted by the `%S` regex), and
fold the julian day into month/day. -/
def strptimeTS (s : List Char) : Option PyDateTime :=
  match matchTS s with
  | none => none
  | some (y, j, h, mi, se, f, rest) =>
    if rest ≠ [] then none
    else if y = 0 then none
    else if 60 ≤ se then none
    else
      let ymd := fromJulian y j
      some ⟨ymd.1, ymd.2.1, ymd.2.2, h, mi, se, f⟩

/-- The result of `parse_filename`: `(region, channel, satellite,
started_at)`. -/
structure ParsedFilename where
  region : List Char
  channel : Nat
  satellite : List Char
  started_at : PyDateTime
deriving DecidableEq

/-- `parse_filename` from `wildfire/goes/utilities.py` (identical in
`wildfire/data/goes_level_1/utilities.py`): `re.search` of the fixed
pattern — raising on no match (`None.groups()`) — then
`strptime(started_at, "%Y%j%H%M%S%f")` and `int(channel)`. -/
def parse_filename (s : List Char) : Option ParsedFilename :=
  match searchG s with
  | none => none
  | some g =>
    match strptimeTS g.startField with
    | none => none
    | some dt => some ⟨g.region, digitsVal g.chanDigits, g.satellite, dt⟩

/-! ## Canonical storage path (`wildfire/goes/band.py` `GoesBand.to_netcdf`) -/

/-- `str(n)` for a natural number. -/
def natChars (n : Nat) : List Char := (Nat.repr n).toList

/-- Zero-pad on the left to the given width (as `strftime` does). -/
def padZeros (w : Nat) (s : List Char) : List Char :=
  List.replicate (w - s.length) '0' ++ s

/-- `strftime("%H")`. -/
def fmt2 (n : Nat) : List Char := padZeros 2 (natChars n)

/-- `strftime("%j")`, given the day-of-year value. -/
def fmt3 (n : Nat) : List Char := padZeros 3 (natChars n)

/-- The day-of-year of a datetime (what `strftime("%j")` formats). -/
def dayOfYear (t : PyDateTime) : Nat :=
  ((monthLengths t.year).take (t.month - 1)).sum + t.day

/-- The canonical storage path built by `GoesBand.to_netcdf`:
`os.path.join(directory, satellite, f"ABI-L1b-Rad{region[0]}",
str(scan_time_utc.year), strftime("%j"), strftime("%H"), dataset_name)` with the
posix separator.  (`region[0]` presupposes a nonempty region, as every
parsed filename of the grammar provides.) -/
def to_path (directory satellite region : List Char) (t : PyDateTime)
    (dataset_name : List Char) : List Char :=
  directory ++ '/' :: (satellite ++ '/' :: (("ABI-L1b-Rad".toList ++ region.take 1) ++
    '/' :: (natChars t.year ++ '/' :: (fmt3 (dayOfYear t) ++
    '/' :: (fmt2 t.hour ++ '/' :: dataset_name)))))

/-- The final component of a path: everything after the last separator. -/
def lastComp (p : List Char) : List Char :=
  (p.reverse.takeWhile (fun c => c != '/')).reverse

/-! ## The spec's filename grammar (§6) -/

/-- Modelled from the spec (§6): a TIMESTAMP field of the grammar,
`%Y%j%H%M%S` plus a decisecond digit — 14 digits with a representable year,
day-of-year 001–366, hour 00–23, minute 00–59, second 00–59. -/
def validTS (s : List Char) : Bool :=
  match s with
  | [y1, y2, y3, y4, j1, j2, j3, h1, h2, m1, m2, s1, s2, d1] =>
    ([y1, y2, y3, y4, j1, j2, j3, h1, h2, m1, m2, s1, s2, d1].all isDig) &&
    decide (1 ≤ digitsVal [y1, y2, y3, y4]) &&
    decide (1 ≤ digitsVal [j1, j2, j3]) && decide (digitsVal [j1, j2, j3] ≤ 366) &&
    decide (digitsVal [h1, h2] ≤ 23) && decide (digitsVal [m1, m2] ≤ 59) &&
    decide (digitsVal [s1, s2] ≤ 59)
  | _ => false

/-- Modelled from the spec (§6): the `s`/`e`/`c` timestamp fields and the
closing `.nc`, each timestamp 14 digits in the grammar's ranges. -/
def grammarTimes (r : List Char) : Bool :=
  validTS (r.take 14) &&
  (match r.drop 14 with
    | '_' :: 'e' :: r2 =>
      validTS (r2.take 14) &&
      (match r2.drop 14 with
        | '_' :: 'c' :: r3 =>
          validTS (r3.take 14) && (r3.drop 14 == ['.', 'n', 'c'])
        | _ => false)
    | _ => false)

/-- Modelled from the spec (§6): after the region, the grammar requires
`-M{n}C{BAND:02d}_{SAT}_s` — the same fixed layout the code's pattern
middle matches (`matchMid`) — with the band number between 01 and 16, then
the three timestamps. -/
def grammarAfterRegion (r : List Char) : Bool :=
  match matchMid r with
  | some (band, _sat, rest) =>
    decide (1 ≤ digitsVal band) && decide (digitsVal band ≤ 16) && grammarTimes rest
  | none => false

/-- Modelled from the spec (§6): the bit-exact filename grammar
`OR_ABI-L1b-Rad{REGION}-M{n}C{BAND:02d}_{SAT}_s{TS}_e{TS}_c{TS}.nc` with
`REGION ∈ {C, F, M1, M2}`. -/
def matchesSpecGrammar (s : List Char) : Bool :=
  match dropLit ("OR_ABI-L1b-Rad".toList) s with
  | none => false
  | some r =>
    match r with
    | 'C' :: rest => grammarAfterRegion rest
    | 'F' :: rest => grammarAfterRegion rest
    | 'M' :: '1' :: rest => grammarAfterRegion rest
    | 'M' :: '2' :: rest => grammarAfterRegion rest
    | _ => false

/-- The concrete filename of the spec's scenario 1. -/
def c6Filename : List Char :=
  "OR_ABI-L1b-RadM1-M6C14_G17_s20193002048275_e20193002048332_c20193002048405.nc".toList

/-- A string the code's search pattern matches whose timestamp field `X` is
not a valid `%Y%j%H%M%S%f` timestamp. -/
def c9BadFilename : List Char := "OR_ABI-L1b-RadM1-M6C01_G17_sX_e_c.nc".toList

/-! # Theorems -/

/-! ## Patch extraction -/

theorem get_patch_indices_docstring_example_1 :
    get_patch_indices 10 2 2 = some [0, 2, 4, 6, 8] := by decide

theorem get_patch_indices_docstring_example_2 :
    get_patch_indices 9 2 3 = some [0, 3, 6, 7] := by decide

theorem get_patch_indices_docstring_example_3 :
    get_patch_indices 7 3 3 = some [0, 3, 4] := by decide

/-- Elements of `npArange` are the successive multiples of the step. -/
theorem npArange_get (stop step : Int) (i : Nat)
    (h : i < (npArange stop step).length) :
    (npArange stop step).get ⟨i, h⟩ = (i : Int) * step := by
  unfold npArange at h ⊢
  rw [List.get_eq_getElem, List.getElem_map, List.getElem_range]

theorem length_npArange (stop step : Int) :
    (npArange stop step).length = (stop.toNat + step.toNat - 1) / step.toNat := by
  unfold npArange
  rw [List.length_map, List.length_range]

/-- Multiples counted by `npArange` stay strictly below the bound. -/
theorem npArange_lt (stop step : Int) (hstep : 1 ≤ step) (i : Nat)
    (h : i < (npArange stop step).length) : (i : Int) * step < stop := by
  rw [length_npArange] at h
  set sN := step.toNat with hsN
  set lN := stop.toNat with hlN
  have hs1 : 1 ≤ sN := by omega
  have h1 : (i + 1) * sN ≤ ((lN + sN - 1) / sN) * sN :=
    Nat.mul_le_mul_right _ (by omega)
  have h2 : ((lN + sN - 1) / sN) * sN ≤ lN + sN - 1 := Nat.div_mul_le_self _ _
  have hsm : (i + 1) * sN = i * sN + sN := Nat.succ_mul i sN
  have h3 : i * sN + sN ≤ lN + sN - 1 := by
    rw [← hsm]; exact le_trans h1 h2
  have h4 : i * sN < lN := by omega
  have h5 : ((i * sN : Nat) : Int) < ((lN : Nat) : Int) := by exact_mod_cast h4
  have hstop : (lN : Int) ≤ stop := by
    rcases Int.le_total 0 stop with hp | hn
    · rw [hlN, Int.toNat_of_nonneg hp]
    · have : lN = 0 := by rw [hlN]; omega
      omega
  have hsint : (sN : Int) = step := by rw [hsN]; exact Int.toNat_of_nonneg (by omega)
  calc (i : Int) * step = ((i * sN : Nat) : Int) := by push_cast [hsint]; ring
    _ < (lN : Int) := h5
    _ ≤ stop := hstop

/-- A nonempty `npArange` starts at `0`. -/
theorem npArange_head (stop step : Int) (h : (npArange stop step).length ≠ 0) :
    (npArange stop step).head? = some 0 := by
  unfold npArange at h ⊢
  rw [List.length_map, List.length_range] at h
  rcases Nat.exists_eq_succ_of_ne_zero h with ⟨m, hm⟩
  rw [hm, List.range_succ_eq_map]
  simp

/-- Claim C2: for all integers `max_index`, `length`, `stride` with
`length ≤ max_index` and `stride ≥ 1`, `get_patch_indices` succeeds and
returns a sequence that starts at `0`, advances by `stride` (its element at
position `i` is `i * stride` for every position other than the last), whose
last element is exactly `max_index - length`, and all of whose elements are
non-negative and at most `max_index - length`. -/
theorem get_patch_indices_coverage (max_index length stride : Int)
    (hlen : length ≤ max_index) (hstride : 1 ≤ stride) :
    ∃ xs, get_patch_indices max_index length stride = some xs ∧
      xs.head? = some 0 ∧
      xs.getLast? = some (max_index - length) ∧
      (∀ (i : Nat) (h : i < xs.length), i + 1 < xs.length →
        xs.get ⟨i, h⟩ = (i : Int) * stride) ∧
      (∀ x ∈ xs, 0 ≤ x ∧ x ≤ max_index - length) := by
  have hnotlt : ¬ max_index < length := not_lt.mpr hlen
  refine ⟨npArange (max_index - length) stride ++ [max_index - length], ?_, ?_, ?_, ?_, ?_⟩
  · simp [get_patch_indices, hnotlt]
  · -- the head is 0: either the arange part is nonempty and starts at 0 * stride,
    -- or it is empty, in which case `max_index - length = 0`.
    by_cases hL : (npArange (max_index - length) stride).length = 0
    · have hnil : npArange (max_index - length) stride = [] := List.length_eq_zero.mp hL
      have hL0 : max_index - length = 0 := by
        rw [length_npArange] at hL
        have hs : 0 < stride.toNat := by omega
        have h2 := (Nat.div_eq_zero_iff hs).mp hL
        omega
      rw [hnil, hL0]
      rfl
    · have hh := npArange_head (max_index - length) stride hL
      have hne : npArange (max_index - length) stride ≠ [] := fun hnil => hL (by rw [hnil]; rfl)
      rcases List.exists_cons_of_ne_nil hne with ⟨a, l, hal⟩
      rw [hal] at hh ⊢
      simpa using hh
  · exact List.getLast?_concat _
  · intro i h hi
    have hlen' : (npArange (max_index - length) stride ++ [max_index - length]).length
        = (npArange (max_index - length) stride).length + 1 := by simp
    have hi' : i < (npArange (max_index - length) stride).length := by omega
    rw [List.get_eq_getElem, List.getElem_append_left hi']
    exact npArange_get _ _ i hi'
  · intro x hx
    rcases List.mem_append.mp hx with hxl | hxr
    · obtain ⟨i, hi, rfl⟩ := by
        simpa only [npArange, List.mem_map, List.mem_range] using hxl
      have hilt : i < (npArange (max_index - length) stride).length := by
        rw [length_npArange]; exact hi
      have := npArange_lt (max_index - length) stride hstride i hilt
      constructor
      · positivity
      · omega
    · have : x = max_index - length := by simpa using hxr
      omega

/-- Witness for `get_patch_indices_coverage` at the spec's concrete scenario
`max_index = 10`, `length = 2`, `stride = 2`. -/
theorem get_patch_indices_coverage_witness :
    ∃ xs, get_patch_indices 10 2 2 = some xs ∧
      xs.head? = some 0 ∧
      xs.getLast? = some (10 - 2) ∧
      (∀ (i : Nat) (h : i < xs.length), i + 1 < xs.length →
        xs.get ⟨i, h⟩ = (i : Int) * 2) ∧
      (∀ x ∈ xs, 0 ≤ x ∧ x ≤ 10 - 2) :=
  get_patch_indices_coverage 10 2 2 (by decide) (by decide)

/-! ## Threshold wildfire classifier -/

/-- The shape-set has one element exactly when the four shapes agree. -/
theorem shapesOf_card_eq_one_iff (a b c d : BoolGrid) :
    (shapesOf a b c d).card = 1 ↔
      (shapeOf b = shapeOf a ∧ shapeOf c = shapeOf a ∧ shapeOf d = shapeOf a) := by
  constructor
  · intro h
    obtain ⟨x, hx⟩ := Finset.card_eq_one.mp h
    have ha : shapeOf a ∈ shapesOf a b c d := by simp [shapesOf]
    have hb : shapeOf b ∈ shapesOf a b c d := by simp [shapesOf]
    have hc : shapeOf c ∈ shapesOf a b c d := by simp [shapesOf]
    have hd : shapeOf d ∈ shapesOf a b c d := by simp [shapesOf]
    rw [hx, Finset.mem_singleton] at ha hb hc hd
    exact ⟨hb.trans ha.symm, hc.trans ha.symm, hd.trans ha.symm⟩
  · rintro ⟨hb, hc, hd⟩
    simp [shapesOf, hb, hc, hd]

/-- Claim C3: for any four boolean masks of equal shape, `predict` succeeds
and returns exactly the pixelwise mask
`is_hot AND (is_night OR (NOT is_cloud AND NOT is_water))`; in particular an
all-false `is_hot` forces an all-false output whatever the other three masks
are, and an all-true `is_hot` with all-false `is_cloud`, `is_water`,
`is_night` forces an all-true output. -/
theorem predict_pixelwise (is_hot is_cloud is_water is_night : BoolGrid)
    (hc : shapeOf is_cloud = shapeOf is_hot) (hw : shapeOf is_water = shapeOf is_hot)
    (hn : shapeOf is_night = shapeOf is_hot) :
    ∃ r, predict is_hot is_cloud is_water is_night = .ok r ∧
      r.h = is_hot.h ∧ r.w = is_hot.w ∧
      (∀ i j, i < r.h → j < r.w →
        r.data i j =
          (is_hot.data i j &&
            (is_night.data i j || (!(is_cloud.data i j) && !(is_water.data i j))))) ∧
      ((∀ i j, is_hot.data i j = false) →
        ∀ i j, i < r.h → j < r.w → r.data i j = false) ∧
      ((∀ i j, is_hot.data i j = true) → (∀ i j, is_cloud.data i j = false) →
        (∀ i j, is_water.data i j = false) → (∀ i j, is_night.data i j = false) →
        ∀ i j, i < r.h → j < r.w → r.data i j = true) := by
  have hcard : (shapesOf is_hot is_cloud is_water is_night).card = 1 :=
    (shapesOf_card_eq_one_iff _ _ _ _).mpr ⟨hc, hw, hn⟩
  refine ⟨⟨is_hot.h, is_hot.w, fun i j =>
      is_hot.data i j &&
        (is_night.data i j || (!(is_cloud.data i j) && !(is_water.data i j)))⟩, ?_, rfl, rfl,
      ?_, ?_, ?_⟩
  · simp [predict, hcard]
  · intro i j _ _
    rfl
  · intro hhot i j _ _
    simp [hhot]
  · intro hhot hcloud hwater hnight i j _ _
    simp [hhot, hcloud, hwater, hnight]

/-- Witness for `predict_pixelwise`: the spec's concrete scenario
`is_hot` all-true, `is_cloud`, `is_water`, `is_night` all-false, on `2 × 2`
masks. -/
theorem predict_pixelwise_witness :
    ∃ r, predict (fullMask 2 2) (emptyMask 2 2) (emptyMask 2 2) (emptyMask 2 2) = .ok r ∧
      r.h = (fullMask 2 2).h ∧ r.w = (fullMask 2 2).w ∧
      (∀ i j, i < r.h → j < r.w →
        r.data i j =
          ((fullMask 2 2).data i j &&
            ((emptyMask 2 2).data i j ||
              (!((emptyMask 2 2).data i j) && !((emptyMask 2 2).data i j))))) ∧
      ((∀ i j, (fullMask 2 2).data i j = false) →
        ∀ i j, i < r.h → j < r.w → r.data i j = false) ∧
      ((∀ i j, (fullMask 2 2).data i j = true) → (∀ i j, (emptyMask 2 2).data i j = false) →
        (∀ i j, (emptyMask 2 2).data i j = false) → (∀ i j, (emptyMask 2 2).data i j = false) →
        ∀ i j, i < r.h → j < r.w → r.data i j = true) :=
  predict_pixelwise (fullMask 2 2) (emptyMask 2 2) (emptyMask 2 2) (emptyMask 2 2) rfl rfl rfl

/-- Claim C8: `predict` fails, with the shape-mismatch error, exactly when
the four masks' shapes are not all equal; the error reports the set of
distinct shapes; and the check is eager — whether it fires, and the raised
error, depend only on the masks' shapes, never on any pixel values, so no
boolean combination (even partial) is computed on mismatch. -/
theorem predict_shape_mismatch (is_hot is_cloud is_water is_night : BoolGrid) :
    ((∃ e, predict is_hot is_cloud is_water is_night = .error e) ↔
      ¬(shapeOf is_cloud = shapeOf is_hot ∧ shapeOf is_water = shapeOf is_hot ∧
        shapeOf is_night = shapeOf is_hot)) ∧
    (∀ e, predict is_hot is_cloud is_water is_night = .error e →
      e = .shapeMismatch (shapesOf is_hot is_cloud is_water is_night)) ∧
    (∀ hot' cloud' water' night' : BoolGrid,
      shapeOf hot' = shapeOf is_hot → shapeOf cloud' = shapeOf is_cloud →
      shapeOf water' = shapeOf is_water → shapeOf night' = shapeOf is_night →
      ∀ e, (predict is_hot is_cloud is_water is_night = .error e ↔
        predict hot' cloud' water' night' = .error e)) := by
  refine ⟨?_, ?_, ?_⟩
  · constructor
    · rintro ⟨e, he⟩ hall
      have hcard : (shapesOf is_hot is_cloud is_water is_night).card = 1 :=
        (shapesOf_card_eq_one_iff _ _ _ _).mpr hall
      simp [predict, hcard] at he
    · intro hnall
      have hcard : (shapesOf is_hot is_cloud is_water is_night).card ≠ 1 :=
        fun hone => hnall ((shapesOf_card_eq_one_iff _ _ _ _).mp hone)
      exact ⟨.shapeMismatch (shapesOf is_hot is_cloud is_water is_night),
        by simp [predict, hcard]⟩
  · intro e he
    by_cases hcard : (shapesOf is_hot is_cloud is_water is_night).card = 1
    · simp [predict, hcard] at he
    · simp [predict, hcard] at he
      exact he.symm
  · intro hot' cloud' water' night' h1 h2 h3 h4 e
    have hsh : shapesOf hot' cloud' water' night' = shapesOf is_hot is_cloud is_water is_night := by
      simp [shapesOf, h1, h2, h3, h4]
    by_cases hcard : (shapesOf is_hot is_cloud is_water is_night).card = 1
    · simp [predict, hcard, hsh]
    · simp [predict, hcard, hsh]

/-- Witness for `predict_shape_mismatch`: mismatched `1 × 1` and `2 × 2`
masks make `predict` fail. -/
theorem predict_shape_mismatch_witness :
    ∃ e, predict (fullMask 1 1) (fullMask 2 2) (fullMask 2 2) (fullMask 2 2) = .error e :=
  (predict_shape_mismatch (fullMask 1 1) (fullMask 2 2) (fullMask 2 2) (fullMask 2 2)).1.mpr
    (by decide)

/-! ## Scan assembly -/

/-- `List.contains` agrees with membership (over a lawful `BEq`). -/
theorem contains_iff_mem {α : Type} [BEq α] [LawfulBEq α] {l : List α} {a : α} :
    l.contains a = true ↔ a ∈ l :=
  ⟨List.mem_of_elem_eq_true, List.elem_eq_true_of_mem⟩

/-- `_assert_no_missing_bands` passes exactly when every band id 1..16 occurs
among the input bands. -/
theorem missingBandIds_eq_nil_iff (bands : List GoesBandMeta) :
    missingBandIds bands = [] ↔ ∀ i, 1 ≤ i → i ≤ 16 → i ∈ bandIds bands := by
  unfold missingBandIds
  rw [List.filter_eq_nil_iff]
  constructor
  · intro h i h1 h16
    have hi : i ∈ List.range' 1 16 := by rw [List.mem_range'_1]; omega
    have hh := h i hi
    simp at hh
    exact hh
  · intro h i hi
    rw [List.mem_range'_1] at hi
    simp
    exact h i (by omega) (by omega)

/-- A 16-element band list containing every id 1..16 has exactly the id set
{1..16}. -/
theorem bandIds_toFinset_eq (bands : List GoesBandMeta) (hlen : bands.length = 16)
    (hsub : ∀ i, 1 ≤ i → i ≤ 16 → i ∈ bandIds bands) :
    (bandIds bands).toFinset = (List.range' 1 16).toFinset := by
  have hRS : (List.range' 1 16).toFinset ⊆ (bandIds bands).toFinset := by
    intro i hi
    rw [List.mem_toFinset] at hi ⊢
    rw [List.mem_range'_1] at hi
    exact hsub i (by omega) (by omega)
  have hcardR : (List.range' 1 16).toFinset.card = 16 := by
    rw [List.toFinset_card_of_nodup (List.nodup_range' 1 16)]
    simp [List.length_range']
  have hcardS : (bandIds bands).toFinset.card ≤ 16 := by
    calc (bandIds bands).toFinset.card ≤ (bandIds bands).length := List.toFinset_card_le _
      _ = 16 := by rw [bandIds, List.length_map, hlen]
  exact (Finset.eq_of_subset_of_card_le hRS (by omega)).symm

/-- A list in which all elements are equal to `a` dedups to `[a]` (or to `[]`
when empty). -/
theorem dedup_of_all_eq {α : Type} [DecidableEq α] (a : α) :
    ∀ l : List α, (∀ x ∈ l, x = a) → l.dedup = if l = [] then [] else [a] := by
  intro l
  induction l with
  | nil => intro _; simp
  | cons c t ih =>
    intro hall
    have hc : c = a := hall c (List.mem_cons_self _ _)
    have ht : ∀ x ∈ t, x = a := fun x hx => hall x (List.mem_cons_of_mem _ hx)
    by_cases hT : t = []
    · subst hT
      subst hc
      simp
    · have hta : t.dedup = [a] := by rw [ih ht]; simp [hT]
      have hmem : c ∈ t := by
        rcases List.exists_cons_of_ne_nil hT with ⟨b, t', rfl⟩
        have hb : b = a := ht b (List.mem_cons_self _ _)
        rw [hc, ← hb]
        exact List.mem_cons_self _ _
      rw [List.dedup_cons_of_mem hmem, hta]
      simp [hT]

/-- `len(set(triples)) == 1` holds exactly when the input is nonempty and all
triples agree. -/
theorem dedup_length_eq_one_iff {α : Type} [DecidableEq α] (l : List α) :
    l.dedup.length = 1 ↔ (l ≠ [] ∧ ∀ x ∈ l, ∀ y ∈ l, x = y) := by
  constructor
  · intro h
    obtain ⟨x, hx⟩ := List.length_eq_one.mp h
    have hne : l ≠ [] := by
      intro hnil
      rw [hnil] at hx
      simp at hx
    refine ⟨hne, fun u hu v hv => ?_⟩
    have hu' : u ∈ l.dedup := List.mem_dedup.mpr hu
    have hv' : v ∈ l.dedup := List.mem_dedup.mpr hv
    rw [hx, List.mem_singleton] at hu' hv'
    rw [hu', hv']
  · rintro ⟨hne, hall⟩
    rcases List.exists_cons_of_ne_nil hne with ⟨c, t, rfl⟩
    have hc : ∀ x ∈ c :: t, x = c := fun x hx => hall x hx c (List.mem_cons_self _ _)
    rw [dedup_of_all_eq c _ hc]
    simp

/-- Claim C1: `assemble` succeeds iff the input has exactly 16 elements, the
set of their band ids is exactly {1..16}, and all elements share one
`(region, satellite, scan_start)` triple; on any violation it raises, and the
three failure causes — wrong count, missing specific band ids, inconsistent
metadata across bands — are distinguishable in the raised error, each
faithful to its own violated condition. -/
theorem assemble_invariant (bands : List GoesBandMeta) :
    ((∃ scan, assemble bands = .ok scan) ↔
      (bands.length = 16 ∧ (bandIds bands).toFinset = (List.range' 1 16).toFinset ∧
        (∀ b ∈ bands, ∀ b' ∈ bands, metaTriple b = metaTriple b'))) ∧
    (∀ m, assemble bands = .error (.missingBands m) →
      m ≠ [] ∧ (∀ i, i ∈ m ↔ (1 ≤ i ∧ i ≤ 16 ∧ i ∉ bandIds bands))) ∧
    (∀ n, assemble bands = .error (.wrongCount n) → n = bands.length ∧ n ≠ 16) ∧
    (assemble bands = .error .inconsistentMetadata →
      ¬ (∀ b ∈ bands, ∀ b' ∈ bands, metaTriple b = metaTriple b')) := by
  refine ⟨?_, ?_, ?_, ?_⟩
  · constructor
    · rintro ⟨scan, hok⟩
      unfold assemble at hok
      split_ifs at hok with h1 h2 h3
      simp at hok
      push_neg at h1
      push_neg at h2
      refine ⟨h2, ?_, ?_⟩
      · exact bandIds_toFinset_eq bands h2 ((missingBandIds_eq_nil_iff bands).mp h1)
      · push_neg at h3
        have hd := (dedup_length_eq_one_iff (bands.map metaTriple)).mp h3
        intro b hb b' hb'
        exact hd.2 (metaTriple b) (List.mem_map_of_mem _ hb)
          (metaTriple b') (List.mem_map_of_mem _ hb')
    · rintro ⟨hlen, hset, htrip⟩
      have h1 : missingBandIds bands = [] := by
        rw [missingBandIds_eq_nil_iff]
        intro i hi1 hi16
        have hmem : i ∈ (List.range' 1 16).toFinset := by
          rw [List.mem_toFinset, List.mem_range'_1]; omega
        rw [← hset, List.mem_toFinset] at hmem
        exact hmem
      have h3 : (bands.map metaTriple).dedup.length = 1 := by
        rw [dedup_length_eq_one_iff]
        constructor
        · intro hnil
          have hlen0 := congrArg List.length hnil
          rw [List.length_map, hlen] at hlen0
          simp at hlen0
        · intro x hx y hy
          obtain ⟨b, hb, rfl⟩ := List.mem_map.mp hx
          obtain ⟨b', hb', rfl⟩ := List.mem_map.mp hy
          exact htrip b hb b' hb'
      exact ⟨(List.range' 1 16).filterMap (fun i => (lookupLast i bands).map (fun b => (i, b))),
        by simp [assemble, h1, hlen, h3]⟩
  · intro m hm
    unfold assemble at hm
    split_ifs at hm with h1 h2 h3 <;> simp at hm
    subst hm
    refine ⟨h1, fun i => ?_⟩
    unfold missingBandIds
    rw [List.mem_filter, List.mem_range'_1]
    constructor
    · rintro ⟨hr, hc⟩
      simp at hc
      exact ⟨by omega, by omega, hc⟩
    · rintro ⟨hi1, hi16, hnot⟩
      refine ⟨by omega, ?_⟩
      simpa using hnot
  · intro n hn
    unfold assemble at hn
    split_ifs at hn with h1 h2 h3 <;> simp at hn
    subst hn
    exact ⟨rfl, h2⟩
  · intro hi
    unfold assemble at hi
    split_ifs at hi with h1 h2 h3 <;> simp at hi
    push_neg at h2
    intro htrip
    apply h3
    rw [dedup_length_eq_one_iff]
    refine ⟨?_, ?_⟩
    · intro hnil
      have hlen0 := congrArg List.length hnil
      rw [List.length_map, h2] at hlen0
      simp at hlen0
    · intro x hx y hy
      obtain ⟨b, hb, rfl⟩ := List.mem_map.mp hx
      obtain ⟨b', hb', rfl⟩ := List.mem_map.mp hy
      exact htrip b hb b' hb'

/-- Witness for `assemble_invariant`: 16 consistent bands with ids 1..16
assemble successfully. -/
theorem assemble_invariant_witness :
    ∃ scan, assemble goodBands16 = .ok scan :=
  (assemble_invariant goodBands16).1.mpr ⟨by decide, by decide, by decide⟩

/-- Claim C10: a 16-element band list in which some band id occurs more than
once raises the "Missing bands" error naming the absent ids — never the
wrong-count error — because the bands are first keyed by band id (collapsing
duplicates) and the missing-band check runs before the length check. -/
theorem duplicate_ids_give_missing_bands (bands : List GoesBandMeta)
    (hlen : bands.length = 16) (hdup : ¬ (bandIds bands).Nodup) :
    assemble bands = .error (.missingBands (missingBandIds bands)) ∧
    missingBandIds bands ≠ [] ∧
    (∀ i ∈ missingBandIds bands, 1 ≤ i ∧ i ≤ 16 ∧ i ∉ bandIds bands) := by
  have hlen' : (bandIds bands).length = 16 := by rw [bandIds, List.length_map, hlen]
  have hne : missingBandIds bands ≠ [] := by
    intro hnil
    have hsub := (missingBandIds_eq_nil_iff bands).mp hnil
    have hRS : (List.range' 1 16).toFinset ⊆ (bandIds bands).toFinset := by
      intro i hi
      rw [List.mem_toFinset] at hi ⊢
      rw [List.mem_range'_1] at hi
      exact hsub i (by omega) (by omega)
    have hcardR : (List.range' 1 16).toFinset.card = 16 := by
      rw [List.toFinset_card_of_nodup (List.nodup_range' 1 16)]
      simp [List.length_range']
    have hdlt : (bandIds bands).dedup.length < 16 := by
      have hsl : (bandIds bands).dedup.Sublist (bandIds bands) := List.dedup_sublist _
      have hle := hsl.length_le
      rcases Nat.lt_or_ge (bandIds bands).dedup.length 16 with hlt | hge
      · exact hlt
      · exfalso
        have heq : (bandIds bands).dedup = bandIds bands :=
          hsl.eq_of_length (by omega)
        exact hdup (heq ▸ List.nodup_dedup _)
    have hcardS : (bandIds bands).toFinset.card < 16 := by
      rw [List.card_toFinset]; omega
    have hmono := Finset.card_le_card hRS
    omega
  refine ⟨by simp [assemble, hne], hne, fun i hi => ?_⟩
  unfold missingBandIds at hi
  rw [List.mem_filter, List.mem_range'_1] at hi
  obtain ⟨hr, hc⟩ := hi
  simp at hc
  exact ⟨by omega, by omega, hc⟩

/-- Witness for `duplicate_ids_give_missing_bands`: 16 bands with ids
`1,…,15,1` (id 1 duplicated, id 16 absent). -/
theorem duplicate_ids_give_missing_bands_witness :
    assemble dupBands16 = .error (.missingBands (missingBandIds dupBands16)) ∧
    missingBandIds dupBands16 ≠ [] ∧
    (∀ i ∈ missingBandIds dupBands16, 1 ≤ i ∧ i ≤ 16 ∧ i ∉ bandIds dupBands16) :=
  duplicate_ids_give_missing_bands dupBands16 (by decide) (by decide)

/-! ## Resolution alignment -/

/-- Counterexample to claim C7 as stated: on a band-1 dataset of spatial
dimensions 5 × 5 the decimation stride is 2, yet the output dimension is
`⌈5/2⌉ = 3`, which is not exactly a shrink of the dimension by the stride
factor (3 * 2 ≠ 5). -/
theorem rescale_to_2km_not_exact_factor :
    rescaleStride cexBand500 = some 2 ∧
    (rescale_to_2km cexBand500).grid.h = 3 ∧
    (rescale_to_2km cexBand500).grid.h * 2 ≠ cexBand500.grid.h := by
  refine ⟨by decide, by decide, by decide⟩

/-- Claim C7 (amended): for every band whose tier requires decimation —
stride 2 for bands 1, 3, 5 and stride 4 for band 2 — rescaling to 2km is
pure subsampling: every output pixel equals the input pixel at `k` times its
indices, never an average, and each spatial dimension of size `n` shrinks to
`⌈n/k⌉` (exactly `n/k` whenever the stride divides the dimension); bands
already at 2km pass through with values unchanged. -/
theorem rescale_to_2km_subsampling (b : GoesBand) :
    (∀ k, rescaleStride b = some k →
      ((rescale_to_2km b).grid.h = ceilDiv b.grid.h k ∧
        (rescale_to_2km b).grid.w = ceilDiv b.grid.w k ∧
        (∀ i j, (rescale_to_2km b).grid.rad i j = b.grid.rad (k * i) (k * j)) ∧
        (k ∣ b.grid.h → (rescale_to_2km b).grid.h * k = b.grid.h) ∧
        (k ∣ b.grid.w → (rescale_to_2km b).grid.w * k = b.grid.w))) ∧
    (rescaleStride b = none → rescale_to_2km b = b) := by
  have hdvd : ∀ n k : Nat, 0 < k → k ∣ n → ceilDiv n k * k = n := by
    rintro n k hk ⟨m, rfl⟩
    unfold ceilDiv
    rw [show k * m + k - 1 = (k - 1) + k * m by omega, Nat.add_mul_div_left _ _ hk,
      Nat.div_eq_of_lt (show k - 1 < k by omega)]
    ring
  constructor
  · intro k hk
    by_cases h135 : b.band_id = 1 ∨ b.band_id = 3 ∨ b.band_id = 5
    · have hk2 : k = 2 := by
        rw [rescaleStride, if_pos h135] at hk
        exact (Option.some_inj.mp hk).symm
      subst hk2
      rw [rescale_to_2km, if_pos h135]
      exact ⟨rfl, rfl, fun i j => rfl, hdvd _ 2 (by omega), hdvd _ 2 (by omega)⟩
    · by_cases h2 : b.band_id = 2
      · have hk4 : k = 4 := by
          rw [rescaleStride, if_neg h135, if_pos h2] at hk
          exact (Option.some_inj.mp hk).symm
        subst hk4
        rw [rescale_to_2km, if_neg h135, if_pos h2]
        exact ⟨rfl, rfl, fun i j => rfl, hdvd _ 4 (by omega), hdvd _ 4 (by omega)⟩
      · rw [rescaleStride, if_neg h135, if_neg h2] at hk
        cases hk
  · intro hnone
    by_cases h135 : b.band_id = 1 ∨ b.band_id = 3 ∨ b.band_id = 5
    · rw [rescaleStride, if_pos h135] at hnone
      cases hnone
    · by_cases h2 : b.band_id = 2
      · rw [rescaleStride, if_neg h135, if_pos h2] at hnone
        cases hnone
      · rw [rescale_to_2km, if_neg h135, if_neg h2]

/-- Witness for `rescale_to_2km_subsampling`: a band-1 dataset (stride 2,
4 × 4 so the stride divides both dimensions) and a pass-through band-7
dataset. -/
theorem rescale_to_2km_subsampling_witness :
    ((rescale_to_2km band1of4).grid.h = ceilDiv band1of4.grid.h 2 ∧
      (rescale_to_2km band1of4).grid.w = ceilDiv band1of4.grid.w 2 ∧
      (∀ i j, (rescale_to_2km band1of4).grid.rad i j = band1of4.grid.rad (2 * i) (2 * j)) ∧
      (2 ∣ band1of4.grid.h → (rescale_to_2km band1of4).grid.h * 2 = band1of4.grid.h) ∧
      (2 ∣ band1of4.grid.w → (rescale_to_2km band1of4).grid.w * 2 = band1of4.grid.w)) ∧
    rescale_to_2km band7of4 = band7of4 :=
  ⟨(rescale_to_2km_subsampling band1of4).1 2 (by decide),
    (rescale_to_2km_subsampling band7of4).2 (by decide)⟩

/-- Claim C4 (code modelled from the spec, see `l1_rescale_to_2km`): for
every scan already at the 2km tier, rescaling it again to 2km is a no-op —
every band keeps its array shape, and every band (all of them pass through)
keeps its values. -/
theorem scan_rescale_idempotent (s : L1GoesScan)
    (h2km : ∀ i, (s.bands i).tier = Tier.km2) :
    ∀ i, ((scan_rescale_to_2km s).bands i).grid.h = (s.bands i).grid.h ∧
      ((scan_rescale_to_2km s).bands i).grid.w = (s.bands i).grid.w ∧
      (∀ x y, ((scan_rescale_to_2km s).bands i).grid.rad x y = (s.bands i).grid.rad x y) := by
  intro i
  have hpass : l1_rescale_to_2km (s.bands i) = s.bands i := by
    unfold l1_rescale_to_2km
    rw [h2km i]
  have hb : (scan_rescale_to_2km s).bands i
      = assignCoords (s.bands 15).grid.xs (s.bands 15).grid.ys
        (l1_rescale_to_2km (s.bands i)) := rfl
  rw [hb, hpass]
  exact ⟨rfl, rfl, fun x y => rfl⟩

/-- Witness for `scan_rescale_idempotent`: a concrete all-2km 16-band scan,
evaluated at band 0 and pixel (0, 0). -/
theorem scan_rescale_idempotent_witness :
    (l1ScanAll2km.bands 0).tier = Tier.km2 ∧
    ((scan_rescale_to_2km l1ScanAll2km).bands 0).grid.h = (l1ScanAll2km.bands 0).grid.h ∧
    ((scan_rescale_to_2km l1ScanAll2km).bands 0).grid.w = (l1ScanAll2km.bands 0).grid.w ∧
    ((scan_rescale_to_2km l1ScanAll2km).bands 0).grid.rad 0 0
      = (l1ScanAll2km.bands 0).grid.rad 0 0 :=
  ⟨rfl, (scan_rescale_idempotent l1ScanAll2km (fun _ => rfl) 0).1,
    (scan_rescale_idempotent l1ScanAll2km (fun _ => rfl) 0).2.1,
    (scan_rescale_idempotent l1ScanAll2km (fun _ => rfl) 0).2.2 0 0⟩

/-! ## Filename codec -/

/-- Claim C6: the filename
`OR_ABI-L1b-RadM1-M6C14_G17_s20193002048275_e20193002048332_c20193002048405.nc`
parses to region `M1`, band 14, satellite `G17`, and scan start
2019-10-27T20:48:27.500000 — the trailing tenths-of-second digit `5` mapped
to exactly 500000 microseconds. -/
theorem parse_filename_scenario :
    parse_filename c6Filename =
      some ⟨['M', '1'], 14, ['G', '1', '7'], ⟨2019, 10, 27, 20, 48, 27, 500000⟩⟩ := by
  decide

/-- Counterexample to claim C9 as stated: `OR_ABI-L1b-RadM1-M6C01_G17_sX_e_c.nc`
does match the fixed search pattern (the timestamp capture is the
unconstrained `(.*)`, here `X`), yet `parse_filename` still fails — the
failure comes from `strptime`, not from a pattern mismatch, so "fails iff
the string does not match the pattern" is false. -/
theorem parse_filename_fails_on_matching_string :
    (searchG c9BadFilename).isSome = true ∧ parse_filename c9BadFilename = none := by
  constructor
  · decide
  · decide

/-- Claim C9 (amended): `parse_filename` fails exactly when the fixed search
pattern does not match the input, or it matches but the captured timestamp
field is not a valid `%Y%j%H%M%S%f` timestamp; every success carries the
metadata of an actual match (region and satellite captures, the parsed
channel number, the parsed timestamp) — a failure raises to the caller and
never silently substitutes a default value. -/
theorem parse_filename_failure_iff (s : List Char) :
    (parse_filename s = none ↔
      (searchG s = none ∨
        ∃ g, searchG s = some g ∧ strptimeTS g.startField = none)) ∧
    (∀ r, parse_filename s = some r →
      ∃ g dt, searchG s = some g ∧ strptimeTS g.startField = some dt ∧
        r = ⟨g.region, digitsVal g.chanDigits, g.satellite, dt⟩) := by
  constructor
  · unfold parse_filename
    cases hs : searchG s with
    | none => simp
    | some g =>
      cases ht : strptimeTS g.startField with
      | none => simp [ht]
      | some dt => simp [ht]
  · intro r hr
    unfold parse_filename at hr
    cases hs : searchG s with
    | none => rw [hs] at hr; cases hr
    | some g =>
      rw [hs] at hr
      cases ht : strptimeTS g.startField with
      | none => simp [ht] at hr
      | some dt =>
        simp [ht] at hr
        exact ⟨g, dt, rfl, ht, hr.symm⟩

/-- Witness for `parse_filename_failure_iff` at the concrete scenario
filename. -/
theorem parse_filename_failure_iff_witness :
    ∃ g dt, searchG c6Filename = some g ∧ strptimeTS g.startField = some dt ∧
      (⟨['M', '1'], 14, ['G', '1', '7'], ⟨2019, 10, 27, 20, 48, 27, 500000⟩⟩ : ParsedFilename)
        = ⟨g.region, digitsVal g.chanDigits, g.satellite, dt⟩ :=
  (parse_filename_failure_iff c6Filename).2
    ⟨['M', '1'], 14, ['G', '1', '7'], ⟨2019, 10, 27, 20, 48, 27, 500000⟩⟩ (by decide)
/-! ## Lemmas about the pattern matcher -/

theorem dropLit_append (p r : List Char) : dropLit p (p ++ r) = some r := by
  induction p with
  | nil => rfl
  | cons c p ih => simp [dropLit, ih]

theorem dropLit_eq_some {p s r : List Char} (h : dropLit p s = some r) : s = p ++ r := by
  induction p generalizing s with
  | nil =>
    have hsr : s = r := by simpa [dropLit] using h
    simp [hsr]
  | cons c p ih =>
    cases s with
    | nil => cases h
    | cons d s =>
      by_cases hdc : d = c
      · subst hdc
        rw [dropLit, if_pos rfl] at h
        simpa using ih h
      · rw [dropLit, if_neg hdc] at h
        cases h

theorem dropLit_cons_ne {x c : Char} (p s : List Char) (h : c ≠ x) :
    dropLit (x :: p) (c :: s) = none := by
  rw [dropLit, if_neg h]

theorem splitStarK_none {α : Type} (k : List Char → Option α) (s : List Char)
    (h : ∀ t, t.IsSuffix s → k t = none) : splitStarK k s = none := by
  induction s with
  | nil =>
    have h0 := h [] List.nil_suffix
    simp [splitStarK, h0]
  | cons c s ih =>
    have hs : splitStarK k s = none :=
      ih (fun t ht => h t (ht.trans (List.suffix_cons c s)))
    have hcs : k (c :: s) = none := h (c :: s) List.suffix_rfl
    by_cases hnl : c = '\n'
    · simp only [splitStarK, if_pos hnl, hcs]
      rfl
    · simp only [splitStarK, if_neg hnl, hs, hcs]
      rfl

/-- The greedy star: if the continuation succeeds when the capture is `g`
and fails at every strictly longer capture, the matcher captures exactly
`g`. -/
theorem splitStarK_greedy {α : Type} (k : List Char → Option α) (g t : List Char) (a : α)
    (hg : ∀ c ∈ g, c ≠ '\n') (hk : k t = some a)
    (hlong : ∀ t', t'.IsSuffix t → t' ≠ t → k t' = none) :
    splitStarK k (g ++ t) = some (g, a) := by
  induction g with
  | nil =>
    rw [List.nil_append]
    cases t with
    | nil => simp [splitStarK, hk]
    | cons c s =>
      have hs : splitStarK k s = none := by
        apply splitStarK_none
        intro t' ht'
        refine hlong t' (ht'.trans (List.suffix_cons c s)) (fun he => ?_)
        subst he
        have hl := ht'.length_le
        simp at hl
      by_cases hnl : c = '\n'
      · simp only [splitStarK, if_pos hnl, hk]
        rfl
      · simp only [splitStarK, if_neg hnl, hs, hk]
        rfl
  | cons c g ih =>
    have hc : c ≠ '\n' := hg c (List.mem_cons_self _ _)
    have hrec : splitStarK k (g ++ t) = some (g, a) :=
      ih (fun x hx => hg x (List.mem_cons_of_mem _ hx))
    rw [List.cons_append]
    simp only [splitStarK, if_neg hc, hrec]

theorem isDig_bounds {c : Char} (h : isDig c = true) : 48 ≤ c.toNat ∧ c.toNat ≤ 57 := by
  simpa [isDig] using h

/-- A digit differs from any character outside the digit code range. -/
theorem isDig_ne_lit {c : Char} (h : isDig c = true) (d : Char)
    (hd : d.toNat < 48 ∨ 57 < d.toNat) : c ≠ d := by
  obtain ⟨h1, h2⟩ := isDig_bounds h
  intro he
  subst he
  omega

theorem oneDig_eq_some {s : List Char} {c : Char} {r : List Char}
    (h : oneDig s = some (c, r)) : s = c :: r ∧ isDig c = true := by
  cases s with
  | nil => cases h
  | cons d s =>
    by_cases hd : isDig d
    · rw [oneDig, if_pos hd] at h
      obtain ⟨rfl, rfl⟩ : d = c ∧ s = r := by
        constructor <;> [exact congrArg Prod.fst (Option.some_inj.mp h);
          exact congrArg Prod.snd (Option.some_inj.mp h)]
      exact ⟨rfl, hd⟩
    · rw [oneDig, if_neg hd] at h
      cases h

theorem matchMid_eval (m d1 d2 e1 e2 : Char) (rest : List Char)
    (hm : isDig m = true) (hd1 : isDig d1 = true) (hd2 : isDig d2 = true)
    (he1 : isDig e1 = true) (he2 : isDig e2 = true) :
    matchMid ('-' :: 'M' :: m :: 'C' :: d1 :: d2 :: '_' :: 'G' :: e1 :: e2 :: '_' :: 's' :: rest)
      = some ([d1, d2], ['G', e1, e2], rest) := by
  simp [matchMid, dropLit, oneDig, hm, hd1, hd2, he1, he2]

theorem matchMid_nil : matchMid [] = none := rfl

theorem matchMid_cons_ne {c : Char} (r : List Char) (h : c ≠ '-') :
    matchMid (c :: r) = none := by
  rw [matchMid]
  rw [dropLit_cons_ne _ _ h]
  rfl

/-- Inversion of the fixed pattern middle. -/
theorem matchMid_inv {t band sat rest : List Char}
    (h : matchMid t = some (band, sat, rest)) :
    ∃ m d1 d2 e1 e2,
      t = '-' :: 'M' :: m :: 'C' :: d1 :: d2 :: '_' :: 'G' :: e1 :: e2 :: '_' :: 's' :: rest ∧
      band = [d1, d2] ∧ sat = ['G', e1, e2] ∧
      isDig m = true ∧ isDig d1 = true ∧ isDig d2 = true ∧
      isDig e1 = true ∧ isDig e2 = true := by
  rw [matchMid] at h
  cases h1 : dropLit ['-', 'M'] t with
  | none => rw [h1] at h; cases h
  | some t1 =>
    rw [h1] at h
    simp only [Option.bind_eq_bind, Option.some_bind] at h
    cases h2 : oneDig t1 with
    | none => rw [h2] at h; cases h
    | some pm =>
      obtain ⟨m, t2⟩ := pm
      rw [h2] at h
      simp only [Option.some_bind] at h
      cases h3 : dropLit ['C'] t2 with
      | none => rw [h3] at h; cases h
      | some t3 =>
        rw [h3] at h
        simp only [Option.some_bind] at h
        cases h4 : oneDig t3 with
        | none => rw [h4] at h; cases h
        | some p1 =>
          obtain ⟨d1, t4⟩ := p1
          rw [h4] at h
          simp only [Option.some_bind] at h
          cases h5 : oneDig t4 with
          | none => rw [h5] at h; cases h
          | some p2 =>
            obtain ⟨d2, t5⟩ := p2
            rw [h5] at h
            simp only [Option.some_bind] at h
            cases h6 : dropLit ['_', 'G'] t5 with
            | none => rw [h6] at h; cases h
            | some t6 =>
              rw [h6] at h
              simp only [Option.some_bind] at h
              cases h7 : oneDig t6 with
              | none => rw [h7] at h; cases h
              | some p3 =>
                obtain ⟨e1, t7⟩ := p3
                rw [h7] at h
                simp only [Option.some_bind] at h
                cases h8 : oneDig t7 with
                | none => rw [h8] at h; cases h
                | some p4 =>
                  obtain ⟨e2, t8⟩ := p4
                  rw [h8] at h
                  simp only [Option.some_bind] at h
                  cases h9 : dropLit ['_', 's'] t8 with
                  | none => rw [h9] at h; cases h
                  | some t9 =>
                    rw [h9] at h
                    simp only [Option.some_bind, Option.some_inj, Prod.mk.injEq] at h
                    obtain ⟨rfl, rfl, rfl⟩ := h
                    have ht1 := dropLit_eq_some h1
                    obtain ⟨ht2, hm⟩ := oneDig_eq_some h2
                    have ht3 := dropLit_eq_some h3
                    obtain ⟨ht4, hd1⟩ := oneDig_eq_some h4
                    obtain ⟨ht5, hd2⟩ := oneDig_eq_some h5
                    have ht6 := dropLit_eq_some h6
                    obtain ⟨ht7, he1⟩ := oneDig_eq_some h7
                    obtain ⟨ht8, he2⟩ := oneDig_eq_some h8
                    have ht9 := dropLit_eq_some h9
                    refine ⟨m, d1, d2, e1, e2, ?_, rfl, rfl, hm, hd1, hd2, he1, he2⟩
                    rw [ht1, ht2, ht3, ht4, ht5, ht6, ht7, ht8, ht9]
                    rfl

theorem findDotNC_true (B : List Char) (c0 : Char) (rest : List Char)
    (hB : ∀ c ∈ B, c ≠ '\n') (hc0 : c0 ≠ '\n') :
    findDotNC (B ++ c0 :: 'n' :: 'c' :: rest) = true := by
  induction B with
  | nil =>
    simp only [List.nil_append, findDotNC, startsNC]
    simp [bne_iff_ne, hc0]
  | cons b B ih =>
    have hb : b ≠ '\n' := hB b (List.mem_cons_self _ _)
    have hrec := ih (fun c hc => hB c (List.mem_cons_of_mem _ hc))
    simp only [List.cons_append, findDotNC]
    simp [bne_iff_ne, hb]
    exact Or.inr hrec

theorem findCtail_true (A : List Char) (r : List Char)
    (hA : ∀ c ∈ A, c ≠ '\n') (hr : findDotNC r = true) :
    findCtail (A ++ '_' :: 'c' :: r) = true := by
  induction A with
  | nil =>
    simp only [List.nil_append, findCtail, afterUc, hr]
    simp
  | cons a A ih =>
    have ha : a ≠ '\n' := hA a (List.mem_cons_self _ _)
    have hrec := ih (fun c hc => hA c (List.mem_cons_of_mem _ hc))
    simp only [List.cons_append, findCtail]
    simp [bne_iff_ne, ha]
    exact Or.inr hrec

theorem tailOk_true (body : List Char) :
    tailOk ('_' :: 'e' :: body) = findCtail body := by
  simp [tailOk, afterUe]

theorem tailOk_cons_ne {c : Char} (r : List Char) (h : c ≠ '_') :
    tailOk (c :: r) = false := by
  simp [tailOk, beq_eq_false_iff_ne, h]

/-- `tailOk` fails on every suffix of a digit run followed by a
`tailOk`-free remainder. -/
theorem tailOk_false_digits (ds : List Char) (r : List Char)
    (hds : ∀ c ∈ ds, isDig c = true)
    (hr : ∀ t', t'.IsSuffix r → tailOk t' = false) :
    ∀ t', t'.IsSuffix (ds ++ r) → tailOk t' = false := by
  induction ds with
  | nil => simpa using hr
  | cons d ds ih =>
    intro t' ht'
    rcases List.suffix_cons_iff.mp ht' with rfl | hsub
    · exact tailOk_cons_ne _
        (isDig_ne_lit (hds d (List.mem_cons_self _ _)) '_' (by decide))
    · exact ih (fun c hc => hds c (List.mem_cons_of_mem _ hc)) t' hsub

/-- `tailOk` fails on every suffix of the closing `.nc`. -/
theorem tailOk_false_end : ∀ t', t'.IsSuffix ['.', 'n', 'c'] → tailOk t' = false := by
  intro t' ht'
  rcases List.suffix_cons_iff.mp ht' with rfl | ht'
  · rfl
  rcases List.suffix_cons_iff.mp ht' with rfl | ht'
  · rfl
  rcases List.suffix_cons_iff.mp ht' with rfl | ht'
  · rfl
  rw [List.suffix_nil.mp ht']
  rfl

/-- `tailOk` fails on every suffix of `_c{ts3}.nc` when `ts3` is a digit
run: the only underscore is followed by `c`, not `e`. -/
theorem tailOk_false_uc (ts3 : List Char) (hts3 : ∀ c ∈ ts3, isDig c = true) :
    ∀ t', t'.IsSuffix ('_' :: 'c' :: (ts3 ++ ['.', 'n', 'c'])) → tailOk t' = false := by
  intro t' ht'
  rcases List.suffix_cons_iff.mp ht' with rfl | ht'
  · rfl
  rcases List.suffix_cons_iff.mp ht' with rfl | ht'
  · rfl
  exact tailOk_false_digits ts3 _ hts3 tailOk_false_end t' ht'

/-- `tailOk` fails on every suffix of `e{ts2}_c{ts3}.nc` when the
timestamps are digit runs — i.e. on every strictly shorter suffix of the
real pattern tail. -/
theorem tailOk_false_body (ts2 ts3 : List Char)
    (hts2 : ∀ c ∈ ts2, isDig c = true) (hts3 : ∀ c ∈ ts3, isDig c = true) :
    ∀ t', t'.IsSuffix ('e' :: (ts2 ++ '_' :: 'c' :: (ts3 ++ ['.', 'n', 'c']))) →
      tailOk t' = false := by
  intro t' ht'
  rcases List.suffix_cons_iff.mp ht' with rfl | ht'
  · rfl
  exact tailOk_false_digits ts2 _ hts2 (tailOk_false_uc ts3 hts3) t' ht'

/-! ## Lemmas about the strptime embedding -/

/-- A digit character is determined by its value. -/
theorem char_ofNat_digVal {c : Char} (h : isDig c = true) :
    c = Char.ofNat (48 + digVal c) := by
  obtain ⟨h1, h2⟩ := isDig_bounds h
  have he : 48 + digVal c = c.toNat := by unfold digVal; omega
  rw [he, Char.ofNat_toNat]

theorem digitsVal_two (a b : Char) :
    digitsVal [a, b] = 10 * digVal a + digVal b := by
  simp [digitsVal, List.foldl]
  ring

theorem digitsVal_three (a b c : Char) :
    digitsVal [a, b, c] = 100 * digVal a + 10 * digVal b + digVal c := by
  simp [digitsVal, List.foldl]
  ring

theorem firstSome_cons_some {α β : Type} (x : α) (tl : List α) (f : α → Option β) (b : β)
    (h : f x = some b) : firstSome (x :: tl) f = some b := by
  simp [firstSome, h]

theorem altsY_eval (y1 y2 y3 y4 : Char) (rest : List Char)
    (h1 : isDig y1 = true) (h2 : isDig y2 = true) (h3 : isDig y3 = true)
    (h4 : isDig y4 = true) :
    altsY (y1 :: y2 :: y3 :: y4 :: rest) = [(digitsVal [y1, y2, y3, y4], rest)] := by
  simp [altsY, h1, h2, h3, h4]

set_option maxHeartbeats 3200000 in
theorem altsJ_head (j1 j2 j3 : Char) (rest : List Char)
    (h1 : isDig j1 = true) (h2 : isDig j2 = true) (h3 : isDig j3 = true)
    (hlo : 1 ≤ 100 * digVal j1 + 10 * digVal j2 + digVal j3)
    (hhi : 100 * digVal j1 + 10 * digVal j2 + digVal j3 ≤ 366) :
    ∃ tl, altsJ (j1 :: j2 :: j3 :: rest)
      = (100 * digVal j1 + 10 * digVal j2 + digVal j3, rest) :: tl := by
  have e1 := char_ofNat_digVal h1
  have e2 := char_ofNat_digVal h2
  have e3 := char_ofNat_digVal h3
  have b1 : digVal j1 ≤ 9 := by
    have := isDig_bounds h1; unfold digVal; omega
  have b2 : digVal j2 ≤ 9 := by
    have := isDig_bounds h2; unfold digVal; omega
  have b3 : digVal j3 ≤ 9 := by
    have := isDig_bounds h3; unfold digVal; omega
  set a := digVal j1 with ha
  set b := digVal j2 with hb
  set c := digVal j3 with hc
  rw [e1, e2, e3]
  have ba : a ≤ 3 := by omega
  interval_cases a <;> interval_cases b <;> interval_cases c <;>
    first
      | omega
      | exact ⟨_, rfl⟩

set_option maxHeartbeats 800000 in
theorem altsH_head (x1 x2 : Char) (rest : List Char)
    (h1 : isDig x1 = true) (h2 : isDig x2 = true)
    (hval : 10 * digVal x1 + digVal x2 ≤ 23) :
    ∃ tl, altsH (x1 :: x2 :: rest) = (10 * digVal x1 + digVal x2, rest) :: tl := by
  have e1 := char_ofNat_digVal h1
  have e2 := char_ofNat_digVal h2
  have b1 : digVal x1 ≤ 9 := by
    have := isDig_bounds h1; unfold digVal; omega
  have b2 : digVal x2 ≤ 9 := by
    have := isDig_bounds h2; unfold digVal; omega
  set a := digVal x1 with ha
  set b := digVal x2 with hb
  rw [e1, e2]
  have ba : a ≤ 2 := by omega
  interval_cases a <;> interval_cases b <;>
    first
      | omega
      | exact ⟨_, rfl⟩

set_option maxHeartbeats 800000 in
theorem altsM_head (x1 x2 : Char) (rest : List Char)
    (h1 : isDig x1 = true) (h2 : isDig x2 = true)
    (hval : 10 * digVal x1 + digVal x2 ≤ 59) :
    ∃ tl, altsM (x1 :: x2 :: rest) = (10 * digVal x1 + digVal x2, rest) :: tl := by
  have e1 := char_ofNat_digVal h1
  have e2 := char_ofNat_digVal h2
  have b1 : digVal x1 ≤ 9 := by
    have := isDig_bounds h1; unfold digVal; omega
  have b2 : digVal x2 ≤ 9 := by
    have := isDig_bounds h2; unfold digVal; omega
  set a := digVal x1 with ha
  set b := digVal x2 with hb
  rw [e1, e2]
  have ba : a ≤ 5 := by omega
  interval_cases a <;> interval_cases b <;>
    first
      | omega
      | exact ⟨_, rfl⟩

set_option maxHeartbeats 800000 in
theorem altsS_head (x1 x2 : Char) (rest : List Char)
    (h1 : isDig x1 = true) (h2 : isDig x2 = true)
    (hval : 10 * digVal x1 + digVal x2 ≤ 59) :
    ∃ tl, altsS (x1 :: x2 :: rest) = (10 * digVal x1 + digVal x2, rest) :: tl := by
  have e1 := char_ofNat_digVal h1
  have e2 := char_ofNat_digVal h2
  have b1 : digVal x1 ≤ 9 := by
    have := isDig_bounds h1; unfold digVal; omega
  have b2 : digVal x2 ≤ 9 := by
    have := isDig_bounds h2; unfold digVal; omega
  set a := digVal x1 with ha
  set b := digVal x2 with hb
  rw [e1, e2]
  have ba : a ≤ 5 := by omega
  interval_cases a <;> interval_cases b <;>
    first
      | omega
      | exact ⟨_, rfl⟩

theorem altsF_single (d : Char) (hd : isDig d = true) :
    altsF [d] = [(digVal d * 100000, [])] := by
  simp [altsF, grabDigits, hd]

/-- Evaluate the directive chain of `matchTS` when the head alternative of
each directive succeeds. -/
theorem matchTS_eval {s restJ restH restM restS restF restEnd : List Char}
    {Y J H M S Fv : Nat}
    (hY : altsY s = [(Y, restJ)])
    (hJ : ∃ tl, altsJ restJ = (J, restH) :: tl)
    (hH : ∃ tl, altsH restH = (H, restM) :: tl)
    (hM : ∃ tl, altsM restM = (M, restS) :: tl)
    (hS : ∃ tl, altsS restS = (S, restF) :: tl)
    (hF : ∃ tl, altsF restF = (Fv, restEnd) :: tl) :
    matchTS s = some (Y, J, H, M, S, Fv, restEnd) := by
  obtain ⟨tlJ, hJ⟩ := hJ
  obtain ⟨tlH, hH⟩ := hH
  obtain ⟨tlM, hM⟩ := hM
  obtain ⟨tlS, hS⟩ := hS
  obtain ⟨tlF, hF⟩ := hF
  unfold matchTS
  rw [hY]
  apply firstSome_cons_some
  simp only
  rw [hJ]
  apply firstSome_cons_some
  simp only
  rw [hH]
  apply firstSome_cons_some
  simp only
  rw [hM]
  apply firstSome_cons_some
  simp only
  rw [hS]
  apply firstSome_cons_some
  simp only
  rw [hF]
  apply firstSome_cons_some
  rfl

/-- A grammar timestamp field is accepted by the embedded `strptime`. -/
theorem strptimeTS_of_validTS (ts : List Char) (h : validTS ts = true) :
    ∃ dt, strptimeTS ts = some dt := by
  unfold validTS at h
  split at h
  · rename_i y1 y2 y3 y4 j1 j2 j3 x1 x2 n1 n2 v1 v2 w1
    simp only [List.all_cons, List.all_nil, Bool.and_eq_true, decide_eq_true_eq,
      and_true] at h
    obtain ⟨⟨⟨⟨⟨⟨hdigs, hY⟩, hJlo⟩, hJhi⟩, hH⟩, hM⟩, hS⟩ := h
    obtain ⟨hy1, hy2, hy3, hy4, hj1, hj2, hj3, hx1, hx2, hn1, hn2, hv1, hv2, hw1⟩ := hdigs
    rw [digitsVal_three] at hJlo hJhi
    rw [digitsVal_two] at hH hM hS
    have hYe := altsY_eval y1 y2 y3 y4
      (j1 :: j2 :: j3 :: x1 :: x2 :: n1 :: n2 :: v1 :: v2 :: [w1]) hy1 hy2 hy3 hy4
    have hJe := altsJ_head j1 j2 j3 (x1 :: x2 :: n1 :: n2 :: v1 :: v2 :: [w1])
      hj1 hj2 hj3 hJlo hJhi
    have hHe := altsH_head x1 x2 (n1 :: n2 :: v1 :: v2 :: [w1]) hx1 hx2 hH
    have hMe := altsM_head n1 n2 (v1 :: v2 :: [w1]) hn1 hn2 hM
    have hSe := altsS_head v1 v2 [w1] hv1 hv2 hS
    have hFe : ∃ tl, altsF [w1] = (digVal w1 * 100000, []) :: tl :=
      ⟨[], altsF_single w1 hw1⟩
    have hmatch := matchTS_eval hYe hJe hHe hMe hSe hFe
    set Y := digitsVal [y1, y2, y3, y4] with hYdef
    set J := 100 * digVal j1 + 10 * digVal j2 + digVal j3 with hJdef
    refine ⟨⟨(fromJulian Y J).1, (fromJulian Y J).2.1, (fromJulian Y J).2.2,
      10 * digVal x1 + digVal x2, 10 * digVal n1 + digVal n2,
      10 * digVal v1 + digVal v2, digVal w1 * 100000⟩, ?_⟩
    rw [strptimeTS, hmatch]
    have hy0 : Y ≠ 0 := by omega
    have hs60 : ¬ 60 ≤ 10 * digVal v1 + digVal v2 := by omega
    simp [hy0, hs60]
  · simp at h

/-! ## Lemmas about the spec grammar -/

theorem validTS_digits {ts : List Char} (h : validTS ts = true) :
    (∀ c ∈ ts, isDig c = true) ∧ ts.length = 14 := by
  unfold validTS at h
  split at h
  · rename_i y1 y2 y3 y4 j1 j2 j3 x1 x2 n1 n2 v1 v2 w1
    simp only [List.all_cons, List.all_nil, Bool.and_eq_true, decide_eq_true_eq,
      and_true] at h
    obtain ⟨⟨⟨⟨⟨⟨hdigs, _⟩, _⟩, _⟩, _⟩, _⟩, _⟩ := h
    obtain ⟨hy1, hy2, hy3, hy4, hj1, hj2, hj3, hx1, hx2, hn1, hn2, hv1, hv2, hw1⟩ := hdigs
    constructor
    · intro c hc
      simp only [List.mem_cons, List.not_mem_nil, or_false] at hc
      rcases hc with rfl | rfl | rfl | rfl | rfl | rfl | rfl | rfl | rfl | rfl |
        rfl | rfl | rfl | rfl <;> assumption
    · rfl
  · simp at h

theorem grammarTimes_inv {r : List Char} (h : grammarTimes r = true) :
    ∃ ts1 ts2 ts3,
      r = ts1 ++ '_' :: 'e' :: (ts2 ++ '_' :: 'c' :: (ts3 ++ ['.', 'n', 'c'])) ∧
      validTS ts1 = true ∧ validTS ts2 = true ∧ validTS ts3 = true := by
  unfold grammarTimes at h
  simp only [Bool.and_eq_true] at h
  obtain ⟨hv1, hrest⟩ := h
  split at hrest
  · rename_i r2 heq1
    simp only [Bool.and_eq_true] at hrest
    obtain ⟨hv2, hrest2⟩ := hrest
    split at hrest2
    · rename_i r3 heq2
      simp only [Bool.and_eq_true, beq_iff_eq] at hrest2
      obtain ⟨hv3, hend⟩ := hrest2
      refine ⟨r.take 14, r2.take 14, r3.take 14, ?_, hv1, hv2, hv3⟩
      have h3 : r3.take 14 ++ ['.', 'n', 'c'] = r3 := by
        rw [← hend]; exact List.take_append_drop 14 r3
      have h2 : r2.take 14 ++ '_' :: 'c' :: (r3.take 14 ++ ['.', 'n', 'c']) = r2 := by
        rw [h3, ← heq2]; exact List.take_append_drop 14 r2
      have h1 : r.take 14 ++ '_' :: 'e' ::
          (r2.take 14 ++ '_' :: 'c' :: (r3.take 14 ++ ['.', 'n', 'c'])) = r := by
        rw [h2, ← heq1]; exact List.take_append_drop 14 r
      exact h1.symm
    · cases hrest2
  · cases hrest

theorem grammarAfterRegion_inv {r : List Char} (h : grammarAfterRegion r = true) :
    ∃ m d1 d2 e1 e2 rest,
      r = '-' :: 'M' :: m :: 'C' :: d1 :: d2 :: '_' :: 'G' :: e1 :: e2 :: '_' :: 's' :: rest ∧
      isDig m = true ∧ isDig d1 = true ∧ isDig d2 = true ∧
      isDig e1 = true ∧ isDig e2 = true ∧
      1 ≤ digitsVal [d1, d2] ∧ digitsVal [d1, d2] ≤ 16 ∧ grammarTimes rest = true := by
  unfold grammarAfterRegion at h
  split at h
  · rename_i band sat rest heq
    simp only [Bool.and_eq_true, decide_eq_true_eq] at h
    obtain ⟨⟨hb1, hb16⟩, htimes⟩ := h
    obtain ⟨m, d1, d2, e1, e2, hshape, hband, hsat, hm, hd1, hd2, he1, he2⟩ :=
      matchMid_inv heq
    subst hband
    exact ⟨m, d1, d2, e1, e2, rest, hshape, hm, hd1, hd2, he1, he2, hb1, hb16, htimes⟩
  · cases h

theorem matchesSpecGrammar_inv {s : List Char} (h : matchesSpecGrammar s = true) :
    ∃ reg rest,
      s = ("OR_ABI-L1b-Rad".toList) ++ reg ++ rest ∧
      (reg = ['C'] ∨ reg = ['F'] ∨ reg = ['M', '1'] ∨ reg = ['M', '2']) ∧
      grammarAfterRegion rest = true := by
  unfold matchesSpecGrammar at h
  split at h
  · cases h
  · rename_i r heq
    have hs := dropLit_eq_some heq
    split at h
    · rename_i rest
      exact ⟨['C'], rest, by simpa using hs, Or.inl rfl, h⟩
    · rename_i rest
      exact ⟨['F'], rest, by simpa using hs, Or.inr (Or.inl rfl), h⟩
    · rename_i rest
      exact ⟨['M', '1'], rest, by simpa using hs, Or.inr (Or.inr (Or.inl rfl)), h⟩
    · rename_i rest
      exact ⟨['M', '2'], rest, by simpa using hs, Or.inr (Or.inr (Or.inr rfl)), h⟩
    · cases h

/-- The inner greedy star captures exactly the first timestamp field: the
tail `_e.*_c.*.nc` matches right after it, and at no longer capture. -/
theorem innerStar (ts1 ts2 ts3 : List Char)
    (h1 : ∀ c ∈ ts1, isDig c = true) (h2 : ∀ c ∈ ts2, isDig c = true)
    (h3 : ∀ c ∈ ts3, isDig c = true) :
    splitStarK tailK
      (ts1 ++ '_' :: 'e' :: (ts2 ++ '_' :: 'c' :: (ts3 ++ ['.', 'n', 'c'])))
      = some (ts1, ()) := by
  apply splitStarK_greedy
  · intro c hc
    exact isDig_ne_lit (h1 c hc) '\n' (by decide)
  · have hdot : findDotNC (ts3 ++ ['.', 'n', 'c']) = true :=
      findDotNC_true ts3 '.' []
        (fun c hc => isDig_ne_lit (h3 c hc) '\n' (by decide)) (by decide)
    have hct : findCtail (ts2 ++ '_' :: 'c' :: (ts3 ++ ['.', 'n', 'c'])) = true :=
      findCtail_true ts2 _
        (fun c hc => isDig_ne_lit (h2 c hc) '\n' (by decide)) hdot
    rw [tailK, tailOk_true, hct]
    rfl
  · intro t' hsuf hne
    rcases List.suffix_cons_iff.mp hsuf with rfl | hsub
    · exact absurd rfl hne
    · have hf := tailOk_false_body ts2 ts3 h2 h3 t' hsub
      rw [tailK, hf]
      rfl

/-- Evaluating `midK` on the grammatical middle of a filename. -/
theorem midK_eval (m d1 d2 e1 e2 : Char) (ts1 ts2 ts3 : List Char)
    (hm : isDig m = true) (hd1 : isDig d1 = true) (hd2 : isDig d2 = true)
    (he1 : isDig e1 = true) (he2 : isDig e2 = true)
    (h1 : ∀ c ∈ ts1, isDig c = true) (h2 : ∀ c ∈ ts2, isDig c = true)
    (h3 : ∀ c ∈ ts3, isDig c = true) :
    midK ('-' :: 'M' :: m :: 'C' :: d1 :: d2 :: '_' :: 'G' :: e1 :: e2 :: '_' :: 's' ::
      (ts1 ++ '_' :: 'e' :: (ts2 ++ '_' :: 'c' :: (ts3 ++ ['.', 'n', 'c']))))
      = some ([d1, d2], ['G', e1, e2], ts1) := by
  unfold midK
  rw [matchMid_eval m d1 d2 e1 e2 _ hm hd1 hd2 he1 he2]
  simp only [Option.bind_eq_bind, Option.some_bind]
  rw [innerStar ts1 ts2 ts3 h1 h2 h3]
  rfl

/-- `midK` fails on every suffix of a dash-free string: the middle of the
pattern starts with a literal `-`. -/
theorem midK_none_of_no_dash (l : List Char) (h : ∀ c ∈ l, c ≠ '-') :
    ∀ t', t'.IsSuffix l → midK t' = none := by
  induction l with
  | nil =>
    intro t' ht'
    rw [List.suffix_nil.mp ht']
    rfl
  | cons c l ih =>
    intro t' ht'
    rcases List.suffix_cons_iff.mp ht' with rfl | hsub
    · rw [midK, matchMid_cons_ne l (h c (List.mem_cons_self _ _))]
      rfl
    · exact ih (fun x hx => h x (List.mem_cons_of_mem _ hx)) t' hsub

/-- Evaluating `matchAt` on a grammatical filename: the four captures are
the region, the two band digits, the satellite and the first timestamp. -/
theorem matchAt_grammar (reg : List Char) (m d1 d2 e1 e2 : Char) (ts1 ts2 ts3 : List Char)
    (hreg : ∀ c ∈ reg, c ≠ '\n')
    (hm : isDig m = true) (hd1 : isDig d1 = true) (hd2 : isDig d2 = true)
    (he1 : isDig e1 = true) (he2 : isDig e2 = true)
    (h1 : ∀ c ∈ ts1, isDig c = true) (h2 : ∀ c ∈ ts2, isDig c = true)
    (h3 : ∀ c ∈ ts3, isDig c = true) :
    matchAt ("OR_ABI-L1b-Rad".toList ++ reg ++
      ('-' :: 'M' :: m :: 'C' :: d1 :: d2 :: '_' :: 'G' :: e1 :: e2 :: '_' :: 's' ::
        (ts1 ++ '_' :: 'e' :: (ts2 ++ '_' :: 'c' :: (ts3 ++ ['.', 'n', 'c'])))))
      = some ⟨reg, [d1, d2], ['G', e1, e2], ts1⟩ := by
  have hmid : ∀ c ∈ ('M' :: m :: 'C' :: d1 :: d2 :: '_' :: 'G' :: e1 :: e2 :: '_' :: 's' ::
      (ts1 ++ '_' :: 'e' :: (ts2 ++ '_' :: 'c' :: (ts3 ++ ['.', 'n', 'c'])))), c ≠ '-' := by
    intro c hc
    simp only [List.mem_cons, List.mem_append, List.not_mem_nil, or_false] at hc
    rcases hc with rfl | rfl | rfl | rfl | rfl | rfl | rfl | rfl | rfl | rfl | rfl |
        hc1 | rfl | rfl | hc2 | rfl | rfl | hc3 | rfl | rfl | rfl
    · decide
    · exact isDig_ne_lit hm '-' (by decide)
    · decide
    · exact isDig_ne_lit hd1 '-' (by decide)
    · exact isDig_ne_lit hd2 '-' (by decide)
    · decide
    · decide
    · exact isDig_ne_lit he1 '-' (by decide)
    · exact isDig_ne_lit he2 '-' (by decide)
    · decide
    · decide
    · exact isDig_ne_lit (h1 c hc1) '-' (by decide)
    · decide
    · decide
    · exact isDig_ne_lit (h2 c hc2) '-' (by decide)
    · decide
    · decide
    · exact isDig_ne_lit (h3 c hc3) '-' (by decide)
    · decide
    · decide
    · decide
  have hstar : splitStarK midK (reg ++
      ('-' :: 'M' :: m :: 'C' :: d1 :: d2 :: '_' :: 'G' :: e1 :: e2 :: '_' :: 's' ::
        (ts1 ++ '_' :: 'e' :: (ts2 ++ '_' :: 'c' :: (ts3 ++ ['.', 'n', 'c'])))))
      = some (reg, ([d1, d2], ['G', e1, e2], ts1)) := by
    apply splitStarK_greedy midK reg _ _ hreg
      (midK_eval m d1 d2 e1 e2 ts1 ts2 ts3 hm hd1 hd2 he1 he2 h1 h2 h3)
    intro t' hsuf hne
    rcases List.suffix_cons_iff.mp hsuf with rfl | hsub
    · exact absurd rfl hne
    · exact midK_none_of_no_dash _ hmid t' hsub
  unfold matchAt
  rw [List.append_assoc, dropLit_append]
  simp only [Option.bind_eq_bind, Option.some_bind]
  rw [hstar]
  rfl

/-- A successful `matchAt` on the whole string makes `searchG` succeed with
the same groups (leftmost start position wins). -/
theorem searchG_of_matchAt {s : List Char} {g : FileGroups}
    (h : matchAt s = some g) : searchG s = some g := by
  cases s with
  | nil => rw [searchG]; exact h
  | cons c rest => rw [searchG, h]

/-! ## Lemmas about the storage path -/

theorem takeWhile_append_of_all (p : Char → Bool) (l r : List Char)
    (h : ∀ c ∈ l, p c = true) :
    (l ++ r).takeWhile p = l ++ r.takeWhile p := by
  induction l with
  | nil => simp
  | cons a l ih =>
    simp only [List.cons_append, List.takeWhile_cons, h a (List.mem_cons_self _ _)]
    rw [ih (fun c hc => h c (List.mem_cons_of_mem _ hc))]
    simp

/-- The final path component after appending a separator and a
separator-free name is that name. -/
theorem lastComp_append (A B : List Char) (hB : ∀ c ∈ B, c ≠ '/') :
    lastComp (A ++ '/' :: B) = B := by
  unfold lastComp
  have hrev : (A ++ '/' :: B).reverse = B.reverse ++ '/' :: A.reverse := by
    simp
  rw [hrev, takeWhile_append_of_all _ _ _
    (fun c hc => by simp [bne_iff_ne, hB c (List.mem_reverse.mp hc)])]
  have hstop : (('/' : Char) :: A.reverse).takeWhile (fun c => c != '/') = [] := by
    simp [List.takeWhile_cons]
  rw [hstop, List.append_nil, List.reverse_reverse]

/-- The final component of the canonical storage path is the dataset
name, whenever the name contains no separator. -/
theorem lastComp_to_path (root sat reg : List Char) (t : PyDateTime) (name : List Char)
    (hname : ∀ c ∈ name, c ≠ '/') :
    lastComp (to_path root sat reg t name) = name := by
  have heq : to_path root sat reg t name =
      (root ++ '/' :: (sat ++ '/' :: (("ABI-L1b-Rad".toList ++ reg.take 1) ++
        '/' :: (natChars t.year ++ '/' :: (fmt3 (dayOfYear t) ++ '/' :: fmt2 t.hour))))) ++
      '/' :: name := by
    simp [to_path, List.append_assoc, List.cons_append]
  rw [heq]
  exact lastComp_append _ name hname

/-- Claim C5: for every filename matching the fixed grammar, parsing
succeeds, and building the canonical storage path from the parsed metadata
produces exactly the layout
`{root}/{satellite}/ABI-L1b-Rad{region[0]}/{year}/{day_of_year}/{hour}/{name}`,
whose final component is the original filename. -/
theorem to_path_roundtrip (root name : List Char) (h : matchesSpecGrammar name = true) :
    ∃ pf : ParsedFilename, parse_filename name = some pf ∧
      to_path root pf.satellite pf.region pf.started_at name =
        root ++ '/' :: (pf.satellite ++ '/' :: (("ABI-L1b-Rad".toList ++ pf.region.take 1) ++
          '/' :: (natChars pf.started_at.year ++ '/' :: (fmt3 (dayOfYear pf.started_at) ++
          '/' :: (fmt2 pf.started_at.hour ++ '/' :: name))))) ∧
      lastComp (to_path root pf.satellite pf.region pf.started_at name) = name := by
  obtain ⟨reg, rest, hshape, hregion, hafter⟩ := matchesSpecGrammar_inv h
  obtain ⟨m, d1, d2, e1, e2, rest2, hshape2, hm, hd1, hd2, he1, he2, hb1, hb16, htimes⟩ :=
    grammarAfterRegion_inv hafter
  obtain ⟨ts1, ts2, ts3, hshape3, hv1, hv2, hv3⟩ := grammarTimes_inv htimes
  obtain ⟨h1, _⟩ := validTS_digits hv1
  obtain ⟨h2, _⟩ := validTS_digits hv2
  obtain ⟨h3, _⟩ := validTS_digits hv3
  subst hshape3
  subst hshape2
  subst hshape
  have hreg_nl : ∀ c ∈ reg, c ≠ '\n' := by
    rcases hregion with rfl | rfl | rfl | rfl <;> decide
  have hmatch := matchAt_grammar reg m d1 d2 e1 e2 ts1 ts2 ts3 hreg_nl
    hm hd1 hd2 he1 he2 h1 h2 h3
  have hsearch := searchG_of_matchAt hmatch
  obtain ⟨dt, hdt⟩ := strptimeTS_of_validTS ts1 hv1
  refine ⟨⟨reg, digitsVal [d1, d2], ['G', e1, e2], dt⟩, ?_, rfl, ?_⟩
  · unfold parse_filename
    rw [hsearch]
    dsimp only
    rw [hdt]
  · apply lastComp_to_path
    have hhd : ∀ x ∈ ("OR_ABI-L1b-Rad".toList), x ≠ '/' := by decide
    have hrg : ∀ x ∈ reg, x ≠ '/' := by
      rcases hregion with rfl | rfl | rfl | rfl <;> decide
    intro c hc
    rcases List.mem_append.mp hc with hc' | hc'
    · rcases List.mem_append.mp hc' with h'' | h''
      · exact hhd c h''
      · exact hrg c h''
    · simp only [List.mem_cons, List.mem_append, List.not_mem_nil, or_false] at hc'
      rcases hc' with rfl | rfl | rfl | rfl | rfl | rfl | rfl | rfl | rfl | rfl | rfl | rfl |
          hc1 | rfl | rfl | hc2 | rfl | rfl | hc3 | rfl | rfl | rfl
      · decide
      · decide
      · exact isDig_ne_lit hm '/' (by decide)
      · decide
      · exact isDig_ne_lit hd1 '/' (by decide)
      · exact isDig_ne_lit hd2 '/' (by decide)
      · decide
      · decide
      · exact isDig_ne_lit he1 '/' (by decide)
      · exact isDig_ne_lit he2 '/' (by decide)
      · decide
      · decide
      · exact isDig_ne_lit (h1 c hc1) '/' (by decide)
      · decide
      · decide
      · exact isDig_ne_lit (h2 c hc2) '/' (by decide)
      · decide
      · decide
      · exact isDig_ne_lit (h3 c hc3) '/' (by decide)
      · decide
      · decide
      · decide

/-- Witness: the concrete scenario filename matches the grammar, and the
round-trip theorem applies to it with a concrete root directory. -/
theorem to_path_roundtrip_witness :
    matchesSpecGrammar c6Filename = true ∧
    (∃ pf : ParsedFilename, parse_filename c6Filename = some pf ∧
      to_path ['d', 'a', 't', 'a'] pf.satellite pf.region pf.started_at c6Filename =
        ['d', 'a', 't', 'a'] ++ '/' :: (pf.satellite ++ '/' ::
          (("ABI-L1b-Rad".toList ++ pf.region.take 1) ++
          '/' :: (natChars pf.started_at.year ++ '/' :: (fmt3 (dayOfYear pf.started_at) ++
          '/' :: (fmt2 pf.started_at.hour ++ '/' :: c6Filename))))) ∧
      lastComp (to_path ['d', 'a', 't', 'a'] pf.satellite pf.region pf.started_at c6Filename)
        = c6Filename) :=
  ⟨by decide, to_path_roundtrip ['d', 'a', 't', 'a'] c6Filename (by decide)⟩
